import Mathlib

/-!
Shallow embedding of the book-recommendation core of the repository
(files `app/user_history.py`, `app/recommender.py`, `app/vector_db.py`,
`app/embeddings.py`, `app/config.py`).

Python floats are modelled as rationals (`ℚ`); `round(x, 2)` is modelled
as exact decimal rounding with ties to even (`round2`).  Python `dict`s
(which iterate in insertion order) are modelled as association lists and
Python `set`s as duplicate-free lists in insertion order; set iteration
order only ever feeds commutative aggregations or a final total-order
sort, so this is observationally faithful.  Python exceptions raised by
the external vector backend are modelled by an `Option`-returning
backend function: `none` aborts the computation, as an uncaught
exception does.
-/

set_option allowUnsafeReducibility true

attribute [local semireducible] Rat.mul Rat.inv Rat.div Rat.add Rat.sub Rat.neg

namespace BooksRec

/-- Round-half-to-even to an integer, as Python's `round` does. -/
def roundHalfEven (q : ℚ) : ℤ :=
  if q - (⌊q⌋ : ℚ) < 1/2 then ⌊q⌋
  else if 1/2 < q - (⌊q⌋ : ℚ) then ⌊q⌋ + 1
  else if ⌊q⌋ % 2 = 0 then ⌊q⌋ else ⌊q⌋ + 1

/-- Python's `round(x, 2)` on the rational model. -/
def round2 (q : ℚ) : ℚ := (roundHalfEven (q * 100) : ℚ) / 100

/-- One entry of the caller-supplied reading history (`models.BookInput`). -/
structure BookInput where
  title : String
  author : String
  genre : Option String
  rating : Option Int
deriving DecidableEq

/-- First-seen metadata of a book key (`user_history.BookSnapshot`). -/
structure BookSnapshot where
  title : String
  author : String
  genre : Option String
  language : String
deriving DecidableEq

/-- The in-memory collaborative store (`user_history.UserHistoryStore`):
Python dicts become association lists, Python sets duplicate-free lists. -/
structure UserHistoryStore where
  user_books : List (String × List String)
  book_users : List (String × List String)
  book_info : List (String × BookSnapshot)
  book_ratings : List (String × List (String × Int))
deriving DecidableEq

/-- The empty store (`UserHistoryStore.__init__`). -/
def emptyStore : UserHistoryStore := ⟨[], [], [], []⟩

/-- One result row of `recommend_from_cooccurrence`. -/
structure CoRec where
  title : String
  author : String
  genre : Option String
  language : String
  score : ℚ
deriving DecidableEq

/-- The configuration knobs the core reads (`config.Settings`). -/
structure Settings where
  MAX_RECOMMENDATIONS_PER_CATEGORY : ℕ
  SIMILARITY_THRESHOLD : ℚ
  COOCCURRENCE_WEIGHT : ℚ
  RATING_WEIGHT : ℚ
  PEOPLE_ALSO_MIN_AVG_RATING : ℚ
deriving DecidableEq

/-- The default configuration values from `config.py`. -/
def defaultSettings : Settings := ⟨5, 3/10, 7/10, 3/10, 3⟩

/-- Association-list lookup (Python `dict.get`). -/
def alookup {α : Type} : List (String × α) → String → Option α
  | [], _ => none
  | (k', v) :: t, k => if k' = k then some v else alookup t k

/-- Association-list store (Python `dict.__setitem__`): replace in place
or append at the end, preserving insertion order. -/
def aset {α : Type} : List (String × α) → String → α → List (String × α)
  | [], k, v => [(k, v)]
  | (k', v') :: t, k, v => if k' = k then (k', v) :: t else (k', v') :: aset t k v

/-- Python `set.add` on the duplicate-free-list model of a set. -/
def sinsert (s : List String) (x : String) : List String :=
  if x ∈ s then s else s ++ [x]

/-- Deduplicate keeping first occurrences (insertion order of a set). -/
def firstDedup : List String → List String
  | [] => []
  | a :: t => a :: (firstDedup t).filter (fun x => x ≠ a)

/-- ASCII lowercasing of one character (Python `str.lower` on the
ASCII inputs this model cares about). -/
def charLower (c : Char) : Char :=
  if 'A' ≤ c ∧ c ≤ 'Z' then Char.ofNat (c.toNat + 32) else c

/-- ASCII whitespace test (Python `str.strip`'s default set, restricted
to the common ASCII whitespace characters). -/
def isSpaceChar (c : Char) : Bool :=
  c = ' ' || c = '\t' || c = '\n' || c = '\r'

/-- Python `s.lower()` on the character-list view of a string. -/
def strLower (s : String) : String := ⟨s.data.map charLower⟩

/-- Python `s.strip()` on the character-list view of a string. -/
def strTrim (s : String) : String :=
  ⟨((s.data.dropWhile isSpaceChar).reverse.dropWhile isSpaceChar).reverse⟩

/-- Embeds `UserHistoryStore._make_key`: lowercased, trimmed `title|author`. -/
def make_key (title author : String) : String :=
  strLower (strTrim title) ++ "|" ++ strLower (strTrim author)

/-- Embeds `user_set.add(key)` (line 42 of `user_history.py`). -/
def rbUser (uid key : String) (st : UserHistoryStore) : UserHistoryStore :=
  let ub := aset st.user_books uid
    (sinsert ((alookup st.user_books uid).getD []) key)
  { st with user_books := ub }

/-- Embeds `self._book_users.setdefault(key, set()).add(user_id)` (line 43). -/
def rbBookUsers (uid key : String) (st : UserHistoryStore) : UserHistoryStore :=
  let bu := aset st.book_users key
    (sinsert ((alookup st.book_users key).getD []) uid)
  { st with book_users := bu }

/-- First-seen snapshot creation (lines 44-50). -/
def rbInfo (key : String) (snap : BookSnapshot) (st : UserHistoryStore) :
    UserHistoryStore :=
  if (alookup st.book_info key).isSome then st
  else { st with book_info := st.book_info ++ [(key, snap)] }

/-- Rating overwrite (lines 51-52). -/
def rbRating (uid key : String) (rating : Option Int) (st : UserHistoryStore) :
    UserHistoryStore :=
  match rating with
  | none => st
  | some r =>
    let br := aset st.book_ratings key
      (aset ((alookup st.book_ratings key).getD []) uid r)
    { st with book_ratings := br }

/-- The per-book body of the loop in `record_history` (lines 40-52). -/
def record_book (uid : String) (language : String)
    (st : UserHistoryStore) (book : BookInput) : UserHistoryStore :=
  let key := make_key book.title book.author
  rbRating uid key book.rating
    (rbInfo key ⟨book.title, book.author, book.genre, language⟩
      (rbBookUsers uid key (rbUser uid key st)))

/-- Embeds `UserHistoryStore.record_history`: ensure the user's entry exists
(`setdefault`) and fold over the reported books. -/
def record_history (st : UserHistoryStore) (uid : String)
    (books : List BookInput) (language : String) : UserHistoryStore :=
  let st0 := { st with
    user_books := aset st.user_books uid ((alookup st.user_books uid).getD []) }
  books.foldl (record_book uid language) st0

/-- The set of seed keys in `recommend_from_cooccurrence`. -/
def seedKeys (seed_books : List BookInput) : List String :=
  firstDedup (seed_books.map (fun b => make_key b.title b.author))

/-- The users who reported any seed key, minus the excluded user. -/
def otherUsers (st : UserHistoryStore) (skeys : List String)
    (exclude_user_id : String) : List String :=
  (firstDedup (skeys.flatMap
    (fun k => (alookup st.book_users k).getD []))).filter
      (fun u => u ≠ exclude_user_id)

/-- Embeds `Counter.__iadd__` on the association-list model of a `Counter`. -/
def bumpCount (m : List (String × ℕ)) (k : String) : List (String × ℕ) :=
  match alookup m k with
  | some c => aset m k (c + 1)
  | none => m ++ [(k, 1)]

/-- The body of the candidate-counting loop (lines 73-80): skip seed
keys, keys with no snapshot, and keys whose snapshot title is
excluded; count the rest. -/
def countBook (st : UserHistoryStore) (skeys exclude_titles : List String)
    (m : List (String × ℕ)) (k : String) : List (String × ℕ) :=
  if k ∈ skeys then m
  else
    match alookup st.book_info k with
    | none => m
    | some info =>
      if info.title ∈ exclude_titles then m else bumpCount m k

/-- One user's contribution to the candidate counts (lines 71-72). -/
def countUser (st : UserHistoryStore) (skeys exclude_titles : List String)
    (m : List (String × ℕ)) (u : String) : List (String × ℕ) :=
  ((alookup st.user_books u).getD []).foldl
    (countBook st skeys exclude_titles) m

/-- The candidate-counting loop of `recommend_from_cooccurrence`
(lines 70-80). -/
def buildCounts (st : UserHistoryStore) (skeys : List String)
    (exclude_titles : List String) (users : List String) :
    List (String × ℕ) :=
  users.foldl (countUser st skeys exclude_titles) []

/-- Embeds `max(counts.values())` with 0 for the (guarded-away) empty case. -/
def maxCountOf (counts : List (String × ℕ)) : ℕ :=
  (counts.map (fun p => p.2)).foldl max 0

/-- Rating values for a key from users other than the excluded one. -/
def ratingValues (st : UserHistoryStore) (k : String)
    (exclude_user_id : String) : List Int :=
  (((alookup st.book_ratings k).getD []).filter
    (fun p => p.1 ≠ exclude_user_id)).map (fun p => p.2)

/-- Embeds `base_score = min(1.0, count / max_count)` (line 91). -/
def cBase (c m : ℕ) : ℚ := min 1 ((c : ℚ) / (m : ℚ))

/-- Embeds `avg_rating = sum(rating_values) / len(rating_values)` (line 98). -/
def cAvg (rv : List Int) : ℚ :=
  ((rv.map (fun r => (r : ℚ))).sum) / (rv.length : ℚ)

/-- The rating blend of lines 101-112: clamp the average to a [0,1]
rating score and mix with the base score by the configured weights
(falling back to the base score when the weights sum to zero). -/
def cBlend (settings : Settings) (base avg : ℚ) : ℚ :=
  let rating_score : ℚ := max 0 (min 1 (avg / 5))
  let weight_total : ℚ :=
    max (settings.COOCCURRENCE_WEIGHT + settings.RATING_WEIGHT) 0
  if 0 < weight_total then
    (settings.COOCCURRENCE_WEIGHT * base
      + settings.RATING_WEIGHT * rating_score) / weight_total
  else base

/-- The scoring body of the ranking loop (lines 87-116): base score from
co-occurrence frequency, optional rating blend, quality gate, and the
final `round(score, 2)`.  Returns `none` when the candidate is gated out
(or lost its snapshot). -/
def scoreEntry (settings : Settings) (st : UserHistoryStore)
    (exclude_user_id : String) (max_count : ℕ) (kc : String × ℕ) :
    Option (ℚ × ℕ × String) :=
  match alookup st.book_info kc.1 with
  | none => none
  | some _ =>
    let rv := ratingValues st kc.1 exclude_user_id
    if rv = [] then some (round2 (cBase kc.2 max_count), kc.2, kc.1)
    else if cAvg rv < settings.PEOPLE_ALSO_MIN_AVG_RATING then none
    else
      some (round2 (cBlend settings (cBase kc.2 max_count) (cAvg rv)),
        kc.2, kc.1)

/-- Embeds `ranked.sort(reverse=True)`, which compares `(score, count, book_key)`
tuples: descending lexicographic order. -/
def rankGE (a b : ℚ × ℕ × String) : Prop :=
  b.1 < a.1 ∨ (b.1 = a.1 ∧
    (b.2.1 < a.2.1 ∨ (b.2.1 = a.2.1 ∧ b.2.2 ≤ a.2.2)))

instance : DecidableRel rankGE := fun a b => by
  unfold rankGE; infer_instance

/-- The candidate-frequency table of one call. -/
def countsOf (st : UserHistoryStore) (seed_books : List BookInput)
    (exclude_user_id : String) (exclude_titles : List String) :
    List (String × ℕ) :=
  buildCounts st (seedKeys seed_books) exclude_titles
    (otherUsers st (seedKeys seed_books) exclude_user_id)

/-- The sorted `ranked` list of `recommend_from_cooccurrence`. -/
def rankedOf (settings : Settings) (st : UserHistoryStore)
    (seed_books : List BookInput) (exclude_user_id : String)
    (exclude_titles : List String) : List (ℚ × ℕ × String) :=
  let counts := countsOf st seed_books exclude_user_id exclude_titles
  List.insertionSort rankGE
    (counts.filterMap (scoreEntry settings st exclude_user_id (maxCountOf counts)))

/-- The result-building loop of `recommend_from_cooccurrence`
(lines 119-132): look the snapshot up again, append, and stop once
`len(results) >= limit`. -/
def buildResults (st : UserHistoryStore) (limit : ℕ) :
    List (ℚ × ℕ × String) → List CoRec
  | [] => []
  | (s, _, k) :: t =>
    match alookup st.book_info k with
    | none => buildResults st limit t
    | some info =>
      let r : CoRec := ⟨info.title, info.author, info.genre, info.language, s⟩
      if limit ≤ 1 then [r] else r :: buildResults st (limit - 1) t

/-- Embeds `UserHistoryStore.recommend_from_cooccurrence`. -/
def recommend_from_cooccurrence (settings : Settings)
    (st : UserHistoryStore) (seed_books : List BookInput)
    (exclude_user_id : String) (exclude_titles : List String)
    (limit : ℕ) : List CoRec :=
  if (countsOf st seed_books exclude_user_id exclude_titles).isEmpty then []
  else
    buildResults st limit
      (rankedOf settings st seed_books exclude_user_id exclude_titles)

/-! ### The vector backend adapter and the recommendation engine
(`vector_db.py`, `embeddings.py`, `recommender.py`)

The external Qdrant index is abstracted as a `backend` function from a
search query to an optional list of scored hits; `none` models a raised
exception (network failure), which in the Python code propagates
uncaught through `VectorDBService.search_similar` and
`RecommendationEngine.generate_recommendations`. -/

/-- One hit from the vector index with its payload fields. -/
structure Hit where
  title : String
  author : String
  description : String
  genre : String
  language : String
  score : ℚ
deriving DecidableEq

/-- The query `search_similar` sends to the index (`query_points` call):
text, optional language/genre filters, requested point count. -/
structure SearchQuery where
  query_text : String
  language : Option String
  genre : Option String
  limit : ℕ
deriving DecidableEq

/-- Embeds `models.RecommendedBook`. -/
structure RecommendedBook where
  title : String
  author : String
  description : Option String
  genre : Option String
  language : String
  match_score : ℚ
deriving DecidableEq

/-- Embeds `models.RecommendationCategory`. -/
structure RecommendationCategory where
  category_title : String
  type : String
  items : List RecommendedBook
deriving DecidableEq

/-- Embeds `models.RecommendationResponse`. -/
structure RecommendationResponse where
  recommendations : List RecommendationCategory
deriving DecidableEq

/-- Embeds `models.RecommendationRequest`. -/
structure RecommendationRequest where
  user_id : Option String
  preferred_language : String
  history : List BookInput
deriving DecidableEq

/-- Embeds `EmbeddingService.create_book_embedding_text`: join title, author,
optional genre and optional description with pipes. -/
def create_book_embedding_text (title author description genre : String) :
    String :=
  String.intercalate " | "
    ([title, "by " ++ author]
      ++ (if genre ≠ "" then ["Genre: " ++ genre] else [])
      ++ (if description ≠ "" then [description] else []))

/-- The post-query filter/trim loop of `VectorDBService.search_similar`
(lines 174-196): skip excluded titles (only when the exclusion list is
non-empty, mirroring `if exclude_titles and title in exclude_titles`),
append, and stop once `limit` results are collected. -/
def searchFilter (exclude_titles : List String) (limit : ℕ) :
    List Hit → List Hit
  | [] => []
  | h :: t =>
    if exclude_titles ≠ [] ∧ h.title ∈ exclude_titles then
      searchFilter exclude_titles limit t
    else if limit ≤ 1 then [h]
    else h :: searchFilter exclude_titles (limit - 1) t

/-- Embeds `VectorDBService.search_similar`: query the index for
`limit + len(exclude_titles)` points, then filter and trim. -/
def search_similar (backend : SearchQuery → Option (List Hit))
    (query_text : String) (language genre : Option String) (limit : ℕ)
    (exclude_titles : List String) : Option (List Hit) :=
  match backend ⟨query_text, language, genre,
      limit + exclude_titles.length⟩ with
  | none => none
  | some pts => some (searchFilter exclude_titles limit pts)

/-- Embeds `VectorDBService.search_by_author`. -/
def search_by_author (backend : SearchQuery → Option (List Hit))
    (author : String) (language : Option String) (limit : ℕ)
    (exclude_titles : List String) : Option (List Hit) :=
  search_similar backend ("Books by " ++ author) language none limit
    exclude_titles

/-- Embeds `VectorDBService.search_by_genre`. -/
def search_by_genre (backend : SearchQuery → Option (List Hit))
    (genre : String) (language : Option String) (limit : ℕ)
    (exclude_titles : List String) : Option (List Hit) :=
  search_similar backend ("Best " ++ genre ++ " books") language
    (some genre) limit exclude_titles

/-- Embeds `RecommendationEngine._is_unknown_author`. -/
def is_unknown_author (author : String) : Bool :=
  decide (author = "") ||
    decide (strLower (strTrim author) ∈
      (["unknown", "unknown author", "nieznany", "nieznany autor",
        "brak", "n/a"] : List String))

/-- Building a `RecommendedBook` from a hit, with the engine's
`round(r["score"], 2)`. -/
def mkBook (r : Hit) : RecommendedBook :=
  ⟨r.title, r.author, some r.description, some r.genre, r.language,
    round2 r.score⟩

/-- Embeds `RecommendationEngine._get_similar_to_book`. -/
def get_similar_to_book (settings : Settings)
    (backend : SearchQuery → Option (List Hit)) (book : BookInput)
    (language : String) (exclude_titles : List String) :
    Option RecommendationCategory :=
  let query := create_book_embedding_text book.title book.author ""
    (book.genre.getD "")
  match search_similar backend query (some language) none
      settings.MAX_RECOMMENDATIONS_PER_CATEGORY exclude_titles with
  | none => none
  | some results =>
    let items := (results.filter
      (fun r => settings.SIMILARITY_THRESHOLD ≤ r.score)).map mkBook
    let title := if language = "pl" then "Ponieważ czytałeś: " ++ book.title
      else "Because you read: " ++ book.title
    some ⟨title, "content_similarity", items⟩

/-- Embeds `RecommendationEngine._get_by_author`. -/
def get_by_author (settings : Settings)
    (backend : SearchQuery → Option (List Hit)) (author language : String)
    (exclude_titles : List String) : Option RecommendationCategory :=
  if is_unknown_author author then some ⟨"", "author_based", []⟩
  else
    match search_by_author backend author (some language)
        settings.MAX_RECOMMENDATIONS_PER_CATEGORY exclude_titles with
    | none => none
    | some results =>
      let items := (results.filter
        (fun r => settings.SIMILARITY_THRESHOLD ≤ r.score)).map mkBook
      let title := if language = "pl" then "Więcej od: " ++ author
        else "More from: " ++ author
      some ⟨title, "author_based", items⟩

/-- Embeds `RecommendationEngine._get_people_also_added` (the collaborative
store is in-process, so this shelf cannot fail). -/
def get_people_also_added (settings : Settings) (st : UserHistoryStore)
    (seed_book : BookInput) (language : String)
    (exclude_titles : List String) (user_id : String) :
    RecommendationCategory :=
  let results := recommend_from_cooccurrence settings st [seed_book]
    user_id exclude_titles settings.MAX_RECOMMENDATIONS_PER_CATEGORY
  let items := results.map (fun r =>
    (⟨r.title, r.author, none, r.genre, r.language, r.score⟩ :
      RecommendedBook))
  let title := if language = "pl" then
      "Czytelnicy, którzy dodali: " ++ seed_book.title ++ ", dodali też"
    else "Readers who added: " ++ seed_book.title ++ " also added"
  ⟨title, "people_also_added", items⟩

/-- Embeds `RecommendationEngine._get_by_genre`. -/
def get_by_genre (settings : Settings)
    (backend : SearchQuery → Option (List Hit)) (genre language : String)
    (exclude_titles : List String) : Option RecommendationCategory :=
  match search_by_genre backend genre (some language)
      settings.MAX_RECOMMENDATIONS_PER_CATEGORY exclude_titles with
  | none => none
  | some results =>
    let items := (results.filter
      (fun r => settings.SIMILARITY_THRESHOLD ≤ r.score)).map mkBook
    let title := if language = "pl" then "Topowe " ++ genre ++ " po polsku"
      else "Top " ++ genre ++ " books"
    some ⟨title, "genre_top", items⟩

/-- The serendipity acceptance loop of `_get_discoveries`
(lines 313-329): keep scores in [0.4, 0.75] in result order and stop
once `max_per_category` items are accepted. -/
def discoveriesLoop (max_per : ℕ) : List Hit → List RecommendedBook
  | [] => []
  | r :: t =>
    if 2/5 ≤ r.score ∧ r.score ≤ 3/4 then
      if max_per ≤ 1 then [mkBook r]
      else mkBook r :: discoveriesLoop (max_per - 1) t
    else discoveriesLoop max_per t

/-- Embeds `RecommendationEngine._get_discoveries`: query with a pool limit of
twice `max_per_category`, then run the band-acceptance loop. -/
def get_discoveries (settings : Settings)
    (backend : SearchQuery → Option (List Hit))
    (history : List BookInput) (language : String)
    (exclude_titles : List String) : Option RecommendationCategory :=
  let all_titles := String.intercalate " | "
    (history.map (fun b => b.title))
  match search_similar backend
      ("Diverse interesting books like " ++ all_titles) (some language)
      none (settings.MAX_RECOMMENDATIONS_PER_CATEGORY * 2)
      exclude_titles with
  | none => none
  | some results =>
    let title := if language = "pl" then "Odkrycia dla Ciebie"
      else "Discoveries for You"
    some ⟨title, "serendipity",
      discoveriesLoop settings.MAX_RECOMMENDATIONS_PER_CATEGORY results⟩

/-- Occurrences of a value in a list (`Counter` totals). -/
def countOcc (xs : List String) (a : String) : ℕ :=
  (xs.filter (fun x => x = a)).length

/-- Embeds `Counter(xs).items()` in insertion order. -/
def counterItems (xs : List String) : List (String × ℕ) :=
  (firstDedup xs).map (fun a => (a, countOcc xs a))

/-- Stable insertion for the descending-by-count sort underlying
`Counter.most_common`. -/
def insertByCount (p : String × ℕ) :
    List (String × ℕ) → List (String × ℕ)
  | [] => [p]
  | q :: t => if q.2 ≤ p.2 then p :: q :: t else q :: insertByCount p t

/-- Stable sort descending by count. -/
def sortByCountDesc : List (String × ℕ) → List (String × ℕ)
  | [] => []
  | p :: t => insertByCount p (sortByCountDesc t)

/-- Embeds `Counter(xs).most_common(n)`: descending by count, ties in first
encounter order. -/
def most_common (xs : List String) (n : ℕ) : List (String × ℕ) :=
  (sortByCountDesc (counterItems xs)).take n

/-- Embeds Python `set.update` on the duplicate-free-list model. -/
def setUnion (s : List String) (ts : List String) : List String :=
  ts.foldl sinsert s

/-- The titles of a shelf's items. -/
def shelfTitles (c : RecommendationCategory) : List String :=
  c.items.map (fun i => i.title)

/-- Append a shelf to the accumulated (categories, used-titles) pair
when it is non-empty, merging its titles into the used set (the
`if category.items: categories.append(...); used_titles.update(...)`
pattern of `generate_recommendations`). -/
def appendCat (acc : List RecommendationCategory × List String)
    (cat : RecommendationCategory) :
    List RecommendationCategory × List String :=
  if cat.items.isEmpty then acc
  else (acc.1 ++ [cat], setUnion acc.2 (shelfTitles cat))

/-- Embeds `request.user_id or` the generated anonymous id: Python `or` falls
through on falsy values, so both `None` and `""` yield the generated
anonymous id (modelled by the `anonId` parameter). -/
def resolveUserId (uid : Option String) (anonId : String) : String :=
  match uid with
  | none => anonId
  | some s => if s = "" then anonId else s

/-- Embeds `RecommendationEngine._pick_seed_book`, with the random draw
modelled by an index parameter; `none` models the `IndexError` of
`random.choice` on an empty history. -/
def pick_seed_book (history : List BookInput) (choice : ℕ) :
    Option BookInput :=
  if history.length = 1 then history[0]? else history[choice % history.length]?

/-- The loop over the (up to two) most common known authors. -/
def authorShelves (settings : Settings)
    (backend : SearchQuery → Option (List Hit)) (language : String) :
    List (String × ℕ) → List RecommendationCategory × List String →
    Option (List RecommendationCategory × List String)
  | [], acc => some acc
  | (author, cnt) :: rest, acc =>
    if 1 ≤ cnt then
      match get_by_author settings backend author language acc.2 with
      | none => none
      | some cat => authorShelves settings backend language rest
          (appendCat acc cat)
    else authorShelves settings backend language rest acc

/-- The loop over the (up to two) most common genres. -/
def genreShelves (settings : Settings)
    (backend : SearchQuery → Option (List Hit)) (language : String) :
    List (String × ℕ) → List RecommendationCategory × List String →
    Option (List RecommendationCategory × List String)
  | [], acc => some acc
  | (genre, _) :: rest, acc =>
    match get_by_genre settings backend genre language acc.2 with
    | none => none
    | some cat => genreShelves settings backend language rest
        (appendCat acc cat)

/-- The genres counted by `generate_recommendations` (`if book.genre`
keeps only present, non-empty genres). -/
def historyGenres (history : List BookInput) : List String :=
  history.filterMap (fun b =>
    match b.genre with
    | some g => if g = "" then none else some g
    | none => none)

/-- Embeds `RecommendationEngine.generate_recommendations`.  On success the
result carries the response together with the store as updated by the
final `record_history` side effect; `none` models an uncaught backend
exception aborting the request. -/
def generate_recommendations (settings : Settings)
    (backend : SearchQuery → Option (List Hit)) (st : UserHistoryStore)
    (request : RecommendationRequest) (seedChoice : ℕ) (anonId : String) :
    Option (RecommendationResponse × UserHistoryStore) :=
  let history := request.history
  let language := request.preferred_language
  let user_id := resolveUserId request.user_id anonId
  let read_titles := setUnion [] (history.map (fun b => b.title))
  match pick_seed_book history seedChoice with
  | none => none
  | some seed_book =>
    match get_similar_to_book settings backend seed_book language
        read_titles with
    | none => none
    | some cat1 =>
      let acc1 := appendCat ([], read_titles) cat1
      let cat2 := get_people_also_added settings st seed_book language
        acc1.2 user_id
      let acc2 := appendCat acc1 cat2
      let authors := most_common
        ((history.filter (fun b => !(is_unknown_author b.author))).map
          (fun b => b.author)) 2
      match authorShelves settings backend language authors acc2 with
      | none => none
      | some acc3 =>
        match genreShelves settings backend language
            (most_common (historyGenres history) 2) acc3 with
        | none => none
        | some acc4 =>
          match get_discoveries settings backend history language
              acc4.2 with
          | none => none
          | some dcat =>
            let cats := if dcat.items.isEmpty then acc4.1
              else acc4.1 ++ [dcat]
            some (⟨cats⟩, record_history st user_id history language)

/-- The non-redundancy property of a response: relative to an initial
exclusion set, every shelf's item titles avoid the exclusions and all
titles of earlier shelves. -/
def FreshChain : List String → List RecommendationCategory → Prop
  | _, [] => True
  | excl, c :: rest =>
    (∀ t ∈ shelfTitles c, t ∉ excl) ∧ FreshChain (excl ++ shelfTitles c) rest

/-! ### Concrete fixtures used by counterexamples and witnesses -/

def dune : BookInput := ⟨"Dune", "Frank Herbert", some "Sci-Fi", some 5⟩

def hitOther : Hit := ⟨"Other Book", "Frank Herbert", "desc", "Sci-Fi", "en", 1/2⟩

def duneReq : RecommendationRequest := ⟨some "u1", "en", [dune]⟩

/-- A backend that answers every query with one well-scored hit. -/
def okBackend : SearchQuery → Option (List Hit) := fun _ => some [hitOther]

/-- A backend that fails exactly on the content-similarity query for the
Dune seed and answers every other query. -/
def failBackend : SearchQuery → Option (List Hit) := fun q =>
  if q.query_text = "Dune | by Frank Herbert | Genre: Sci-Fi" then none
  else some [hitOther]

def bSeed : BookInput := ⟨"Seed", "X", none, none⟩

def bA : BookInput := ⟨"A", "Y", none, none⟩

def bB : BookInput := ⟨"B", "Z", none, none⟩

/-- Three users all read the seed; all read A; only u1 read B, so the
candidate counts are A:3 (maxCount) and B:1. -/
def storeABC : UserHistoryStore :=
  record_history
    (record_history
      (record_history emptyStore "u1" [bSeed, bA, bB] "en")
      "u2" [bSeed, bA] "en")
    "u3" [bSeed, bA] "en"

/-- A backend whose every search succeeds with no hits. -/
def emptyBackend : SearchQuery → Option (List Hit) := fun _ => some []

/-- The invariant of the collaborative store: every key in either
direction of the relation has a snapshot, and rated keys appear in the
book-to-users relation. -/
def StoreInv (st : UserHistoryStore) : Prop :=
  (∀ p ∈ st.user_books, ∀ k ∈ p.2,
    (alookup st.book_info k).isSome = true) ∧
  (∀ p ∈ st.book_users, (alookup st.book_info p.1).isSome = true) ∧
  (∀ p ∈ st.book_ratings, (alookup st.book_users p.1).isSome = true)

instance (st : UserHistoryStore) : Decidable (StoreInv st) := by
  unfold StoreInv; infer_instance

instance : IsTotal (ℚ × ℕ × String) rankGE := by
  constructor
  intro a b
  unfold rankGE
  rcases lt_trichotomy a.1 b.1 with h | h | h
  · exact Or.inr (Or.inl h)
  · rcases lt_trichotomy a.2.1 b.2.1 with h2 | h2 | h2
    · exact Or.inr (Or.inr ⟨h, Or.inl h2⟩)
    · rcases le_total a.2.2 b.2.2 with h3 | h3
      · exact Or.inr (Or.inr ⟨h, Or.inr ⟨h2, h3⟩⟩)
      · exact Or.inl (Or.inr ⟨h.symm, Or.inr ⟨h2.symm, h3⟩⟩)
    · exact Or.inl (Or.inr ⟨h.symm, Or.inl h2⟩)
  · exact Or.inl (Or.inl h)

instance : IsTrans (ℚ × ℕ × String) rankGE := by
  constructor
  intro a b c hab hbc
  unfold rankGE at hab hbc ⊢
  rcases hab with h1 | ⟨e1, hh1⟩
  · rcases hbc with h2 | ⟨e2, hh2⟩
    · exact Or.inl (h2.trans h1)
    · exact Or.inl (by rw [e2]; exact h1)
  · rcases hbc with h2 | ⟨e2, hh2⟩
    · exact Or.inl (by rw [← e1]; exact h2)
    · refine Or.inr ⟨e2.trans e1, ?_⟩
      rcases hh1 with g1 | ⟨f1, s1⟩
      · rcases hh2 with g2 | ⟨f2, s2⟩
        · exact Or.inl (g2.trans g1)
        · exact Or.inl (by rw [f2]; exact g1)
      · rcases hh2 with g2 | ⟨f2, s2⟩
        · exact Or.inl (by rw [← f1]; exact g2)
        · exact Or.inr ⟨f2.trans f1, s2.trans s1⟩

/-- The loop invariant of `generate_recommendations`: the shelves built
so far form a fresh chain over the history titles, and the used-title
set covers the history titles and every built shelf's titles. -/
def AccOK (hist : List String)
    (acc : List RecommendationCategory × List String) : Prop :=
  FreshChain hist acc.1 ∧ (∀ t ∈ hist, t ∈ acc.2) ∧
    (∀ c ∈ acc.1, ∀ t ∈ shelfTitles c, t ∈ acc.2)

/-! ### Association-list and set-model lemmas -/

theorem alookup_aset {α : Type} (m : List (String × α)) (k : String) (v : α)
    (q : String) :
    alookup (aset m k v) q = if q = k then some v else alookup m q := by
  induction m with
  | nil =>
    simp only [aset, alookup]
    by_cases h : k = q
    · rw [if_pos h, if_pos h.symm]
    · rw [if_neg h, if_neg (fun hh => h hh.symm)]
  | cons p t ih =>
    obtain ⟨k', v'⟩ := p
    by_cases hk : k' = k
    · subst hk
      simp only [aset, if_pos rfl, alookup]
      by_cases hq : k' = q
      · rw [if_pos hq, if_pos hq.symm]
      · rw [if_neg hq, if_neg (fun hh => hq hh.symm), if_neg hq]
    · simp only [aset, if_neg hk, alookup]
      by_cases hq : k' = q
      · have hqk : ¬ q = k := fun hh => hk (hq.trans hh)
        rw [if_pos hq, if_neg hqk, if_pos hq]
      · rw [if_neg hq, ih]
        by_cases h2 : q = k
        · rw [if_pos h2, if_pos h2]
        · rw [if_neg h2, if_neg h2, if_neg hq]

theorem aset_of_alookup {α : Type} {m : List (String × α)} {k : String}
    {v : α} (h : alookup m k = some v) : aset m k v = m := by
  induction m with
  | nil => simp [alookup] at h
  | cons p t ih =>
    obtain ⟨k', v'⟩ := p
    by_cases hk : k' = k
    · subst hk
      simp [alookup] at h
      simp [aset, h]
    · simp [alookup, hk] at h
      simp [aset, hk, ih h]

theorem mem_aset {α : Type} {m : List (String × α)} {k : String} {v : α}
    {p : String × α} (h : p ∈ aset m k v) : p = (k, v) ∨ p ∈ m := by
  induction m with
  | nil => simp [aset] at h; simp [h]
  | cons q t ih =>
    obtain ⟨k', v'⟩ := q
    by_cases hk : k' = k
    · subst hk
      simp [aset] at h
      rcases h with h | h
      · exact Or.inl (by simp [h])
      · exact Or.inr (by simp [h])
    · simp [aset, hk] at h
      rcases h with h | h
      · exact Or.inr (by simp [h])
      · rcases ih h with h' | h'
        · exact Or.inl h'
        · exact Or.inr (by simp [h'])

theorem alookup_mem {α : Type} {m : List (String × α)} {q : String} {v : α}
    (h : alookup m q = some v) : (q, v) ∈ m := by
  induction m with
  | nil => simp [alookup] at h
  | cons p t ih =>
    obtain ⟨k', v'⟩ := p
    by_cases hk : k' = q
    · subst hk
      simp [alookup] at h
      simp [h]
    · simp [alookup, hk] at h
      simp [ih h]

theorem alookup_append {α : Type} (m l : List (String × α)) (q : String) :
    alookup (m ++ l) q =
      if (alookup m q).isSome then alookup m q else alookup l q := by
  induction m with
  | nil => simp [alookup]
  | cons p t ih =>
    obtain ⟨k, v⟩ := p
    by_cases h : k = q <;> simp [alookup, h, ih]

theorem alookup_append_left {α : Type} {m : List (String × α)} {q : String}
    {v : α} (l : List (String × α)) (h : alookup m q = some v) :
    alookup (m ++ l) q = some v := by
  rw [alookup_append]; simp [h]

theorem self_mem_sinsert (s : List String) (x : String) : x ∈ sinsert s x := by
  unfold sinsert; split
  · assumption
  · simp

theorem mem_sinsert {s : List String} {x y : String} (h : x ∈ sinsert s y) :
    x = y ∨ x ∈ s := by
  unfold sinsert at h
  split at h
  · exact Or.inr h
  · simp at h; tauto

theorem sinsert_of_mem {s : List String} {x : String} (h : x ∈ s) :
    sinsert s x = s := by
  simp [sinsert, h]

/-! ### Field computations for `record_book` -/

theorem record_book_user_books (u lang : String) (st : UserHistoryStore)
    (b : BookInput) :
    (record_book u lang st b).user_books =
      aset st.user_books u
        (sinsert ((alookup st.user_books u).getD [])
          (make_key b.title b.author)) := by
  cases hb : b.rating <;>
    simp only [record_book, rbRating, rbInfo, rbBookUsers, rbUser, hb] <;>
    split <;> rfl

theorem record_book_book_users (u lang : String) (st : UserHistoryStore)
    (b : BookInput) :
    (record_book u lang st b).book_users =
      aset st.book_users (make_key b.title b.author)
        (sinsert ((alookup st.book_users (make_key b.title b.author)).getD [])
          u) := by
  cases hb : b.rating <;>
    simp only [record_book, rbRating, rbInfo, rbBookUsers, rbUser, hb] <;>
    split <;> rfl

theorem record_book_book_info_some {st : UserHistoryStore} {q : String}
    {s : BookSnapshot} (u lang : String) (b : BookInput)
    (h : alookup st.book_info q = some s) :
    alookup (record_book u lang st b).book_info q = some s := by
  cases hb : b.rating <;>
    simp only [record_book, rbRating, rbInfo, rbBookUsers, rbUser, hb] <;>
    split
  · exact h
  · exact alookup_append_left _ h
  · exact h
  · exact alookup_append_left _ h

theorem record_book_book_info_key (u lang : String) (st : UserHistoryStore)
    (b : BookInput) :
    (alookup (record_book u lang st b).book_info
      (make_key b.title b.author)).isSome := by
  cases hb : b.rating <;>
    simp only [record_book, rbRating, rbInfo, rbBookUsers, rbUser, hb] <;>
    split <;> rename_i h
  · exact h
  · rw [alookup_append]
    simp only [Option.not_isSome_iff_eq_none] at h
    simp [h, alookup]
  · exact h
  · rw [alookup_append]
    simp only [Option.not_isSome_iff_eq_none] at h
    simp [h, alookup]

theorem record_book_book_ratings_none (u lang : String)
    (st : UserHistoryStore) (b : BookInput) (h : b.rating = none) :
    (record_book u lang st b).book_ratings = st.book_ratings := by
  simp only [record_book, rbRating, rbInfo, rbBookUsers, rbUser, h]
  split <;> rfl

theorem record_book_book_ratings_some (u lang : String)
    (st : UserHistoryStore) (b : BookInput) (r : Int) (h : b.rating = some r) :
    (record_book u lang st b).book_ratings =
      aset st.book_ratings (make_key b.title b.author)
        (aset ((alookup st.book_ratings (make_key b.title b.author)).getD [])
          u r) := by
  simp only [record_book, rbRating, rbInfo, rbBookUsers, rbUser, h]
  split <;> rfl

theorem alookup_aset_key {α : Type} (m : List (String × α)) (k : String)
    (v : α) : alookup (aset m k v) k = some v := by
  rw [alookup_aset, if_pos rfl]

theorem isSome_alookup_aset {α : Type} {m : List (String × α)} {q : String}
    (k : String) (v : α) (h : (alookup m q).isSome = true) :
    (alookup (aset m k v) q).isSome = true := by
  rw [alookup_aset]
  split
  · rfl
  · exact h

/-- A single-book `record_history` call unfolds to the `setdefault` step
followed by one `record_book`. -/
theorem record_history_single (st : UserHistoryStore) (u lang : String)
    (b : BookInput) :
    record_history st u [b] lang =
      record_book u lang
        { st with
          user_books := aset st.user_books u ((alookup st.user_books u).getD []) }
        b := rfl

/-- Lemma: `record_book` is the identity on a store that has already recorded
exactly this user-book report. -/
theorem record_book_of_recorded (u lang : String) (st : UserHistoryStore)
    (b : BookInput)
    (h1 : ∃ l, alookup st.user_books u = some l ∧
      make_key b.title b.author ∈ l)
    (h2 : ∃ l, alookup st.book_users (make_key b.title b.author) = some l ∧
      u ∈ l)
    (h3 : (alookup st.book_info (make_key b.title b.author)).isSome = true)
    (h4 : ∀ r, b.rating = some r →
      ∃ rm, alookup st.book_ratings (make_key b.title b.author) = some rm ∧
        alookup rm u = some r) :
    record_book u lang st b = st := by
  obtain ⟨l1, hl1, hm1⟩ := h1
  obtain ⟨l2, hl2, hm2⟩ := h2
  have e1 : rbUser u (make_key b.title b.author) st = st := by
    unfold rbUser
    rw [hl1, Option.getD_some, sinsert_of_mem hm1, aset_of_alookup hl1]
  have e2 : rbBookUsers u (make_key b.title b.author) st = st := by
    unfold rbBookUsers
    rw [hl2, Option.getD_some, sinsert_of_mem hm2, aset_of_alookup hl2]
  have e3 : ∀ snap, rbInfo (make_key b.title b.author) snap st = st := by
    intro snap
    unfold rbInfo
    rw [if_pos h3]
  have e4 : rbRating u (make_key b.title b.author) b.rating st = st := by
    cases hb : b.rating with
    | none => rfl
    | some r =>
      obtain ⟨rm, hrm, hru⟩ := h4 r hb
      simp only [rbRating]
      rw [hrm, Option.getD_some, aset_of_alookup hru, aset_of_alookup hrm]
  simp only [record_book]
  rw [e1, e2, e3, e4]

/-- After `record_history st u [b] lang`, the report of `b` by `u` is
fully present in the store. -/
theorem recorded_after_record_history (st : UserHistoryStore)
    (u lang : String) (b : BookInput) :
    (∃ l, alookup (record_history st u [b] lang).user_books u = some l ∧
      make_key b.title b.author ∈ l) ∧
    (∃ l, alookup (record_history st u [b] lang).book_users
        (make_key b.title b.author) = some l ∧ u ∈ l) ∧
    ((alookup (record_history st u [b] lang).book_info
        (make_key b.title b.author)).isSome = true) ∧
    (∀ r, b.rating = some r →
      ∃ rm, alookup (record_history st u [b] lang).book_ratings
          (make_key b.title b.author) = some rm ∧
        alookup rm u = some r) := by
  rw [record_history_single]
  refine ⟨?_, ?_, ?_, ?_⟩
  · rw [record_book_user_books]
    exact ⟨_, alookup_aset_key _ _ _, self_mem_sinsert _ _⟩
  · rw [record_book_book_users]
    exact ⟨_, alookup_aset_key _ _ _, self_mem_sinsert _ _⟩
  · exact record_book_book_info_key _ _ _ _
  · intro r hr
    rw [record_book_book_ratings_some _ _ _ _ r hr]
    exact ⟨_, alookup_aset_key _ _ _, alookup_aset_key _ _ _⟩

/-- C6, first half: a second identical single-book report is a no-op on
the whole store state. -/
theorem record_history_idem (st : UserHistoryStore) (u lang : String)
    (b : BookInput) :
    record_history (record_history st u [b] lang) u [b] lang
      = record_history st u [b] lang := by
  obtain ⟨⟨l1, hl1, hm1⟩, h2, h3, h4⟩ :=
    recorded_after_record_history st u lang b
  rw [record_history_single
    (record_history st u [b] lang) u lang b]
  rw [show { record_history st u [b] lang with
      user_books := aset (record_history st u [b] lang).user_books u
        ((alookup (record_history st u [b] lang).user_books u).getD []) }
      = record_history st u [b] lang by
    rw [hl1, Option.getD_some, aset_of_alookup hl1]]
  exact record_book_of_recorded u lang _ b ⟨l1, hl1, hm1⟩ h2 h3 h4

/-- Recording a rated report stores exactly that rating for (key, user). -/
theorem record_history_rating_stored (st : UserHistoryStore)
    (u lang : String) (b : BookInput) (r : Int) (hr : b.rating = some r) :
    alookup ((alookup (record_history st u [b] lang).book_ratings
        (make_key b.title b.author)).getD []) u = some r := by
  rw [record_history_single, record_book_book_ratings_some _ _ _ _ r hr,
    alookup_aset_key, Option.getD_some, alookup_aset_key]

/-- Recording a report of an already-known key changes no user-book edges
when the key is already present for this user. -/
theorem record_history_same_edges (st : UserHistoryStore) (u lang : String)
    (b : BookInput)
    (h1 : ∃ l, alookup st.user_books u = some l ∧
      make_key b.title b.author ∈ l)
    (h2 : ∃ l, alookup st.book_users (make_key b.title b.author) = some l ∧
      u ∈ l) :
    (record_history st u [b] lang).user_books = st.user_books ∧
    (record_history st u [b] lang).book_users = st.book_users := by
  obtain ⟨l1, hl1, hm1⟩ := h1
  obtain ⟨l2, hl2, hm2⟩ := h2
  rw [record_history_single]
  constructor
  · rw [record_book_user_books]
    simp only [hl1, Option.getD_some]
    rw [alookup_aset_key, Option.getD_some, aset_of_alookup hl1,
      sinsert_of_mem hm1, aset_of_alookup hl1]
  · rw [record_book_book_users]
    simp only []
    rw [hl2, Option.getD_some, sinsert_of_mem hm2, aset_of_alookup hl2]

/-- C6: calling `record_history(u, [b], lang)` twice with an identical
book is a no-op the second time (so in particular the co-occurrence
edges, hence all co-occurrence counts, are those of a single call), and
a second call reporting the same (title, author) with a different rating
`r2` stores `r2` for (key, u) — replacing, not accumulating — while
leaving the user-book edges unchanged. -/
theorem record_history_idempotent_and_rating_overwrite
    (st : UserHistoryStore) (u lang : String) (b : BookInput) (r2 : Int) :
    record_history (record_history st u [b] lang) u [b] lang
      = record_history st u [b] lang
    ∧ alookup ((alookup (record_history (record_history st u [b] lang) u
          [⟨b.title, b.author, b.genre, some r2⟩] lang).book_ratings
          (make_key b.title b.author)).getD []) u = some r2
    ∧ (record_history (record_history st u [b] lang) u
          [⟨b.title, b.author, b.genre, some r2⟩] lang).user_books
        = (record_history st u [b] lang).user_books
    ∧ (record_history (record_history st u [b] lang) u
          [⟨b.title, b.author, b.genre, some r2⟩] lang).book_users
        = (record_history st u [b] lang).book_users := by
  obtain ⟨h1, h2, h3, h4⟩ := recorded_after_record_history st u lang b
  refine ⟨record_history_idem st u lang b, ?_, ?_, ?_⟩
  · exact record_history_rating_stored _ u lang
      ⟨b.title, b.author, b.genre, some r2⟩ r2 rfl
  · exact (record_history_same_edges _ u lang
      ⟨b.title, b.author, b.genre, some r2⟩ h1 h2).1
  · exact (record_history_same_edges _ u lang
      ⟨b.title, b.author, b.genre, some r2⟩ h1 h2).2

/-! ### The CollaborativeIndex invariant (C9) -/

theorem record_book_inv (u lang : String) (st : UserHistoryStore)
    (b : BookInput) (h : StoreInv st) : StoreInv (record_book u lang st b) := by
  obtain ⟨hub, hbu, hbr⟩ := h
  have hinfo_old : ∀ q, (alookup st.book_info q).isSome = true →
      (alookup (record_book u lang st b).book_info q).isSome = true := by
    intro q hq
    obtain ⟨s, hs⟩ := Option.isSome_iff_exists.mp hq
    rw [record_book_book_info_some u lang b hs]
    rfl
  refine ⟨?_, ?_, ?_⟩
  · intro p hp k hk
    rw [record_book_user_books] at hp
    rcases mem_aset hp with hp | hp
    · subst hp
      rcases mem_sinsert hk with hk | hk
      · subst hk
        exact record_book_book_info_key u lang st b
      · rcases he : alookup st.user_books u with _ | l
        · rw [he] at hk; simp at hk
        · rw [he] at hk
          simp only [Option.getD_some] at hk
          exact hinfo_old k (hub (u, l) (alookup_mem he) k hk)
    · exact hinfo_old k (hub p hp k hk)
  · intro p hp
    rw [record_book_book_users] at hp
    rcases mem_aset hp with hp | hp
    · subst hp
      exact record_book_book_info_key u lang st b
    · exact hinfo_old p.1 (hbu p hp)
  · intro p hp
    have hbu' : ∀ q, (alookup st.book_users q).isSome = true →
        (alookup (record_book u lang st b).book_users q).isSome = true := by
      intro q hq
      rw [record_book_book_users]
      exact isSome_alookup_aset _ _ hq
    cases hr : b.rating with
    | none =>
      rw [record_book_book_ratings_none u lang st b hr] at hp
      exact hbu' p.1 (hbr p hp)
    | some r =>
      rw [record_book_book_ratings_some u lang st b r hr] at hp
      rcases mem_aset hp with hp | hp
      · subst hp
        rw [record_book_book_users]
        simp [alookup_aset_key]
      · exact hbu' p.1 (hbr p hp)

theorem setdefault_inv (u : String) (st : UserHistoryStore)
    (h : StoreInv st) :
    StoreInv { st with
      user_books := aset st.user_books u ((alookup st.user_books u).getD []) } := by
  obtain ⟨hub, hbu, hbr⟩ := h
  refine ⟨?_, hbu, hbr⟩
  intro p hp k hk
  rcases mem_aset hp with hp | hp
  · subst hp
    rcases he : alookup st.user_books u with _ | l
    · rw [he] at hk; simp at hk
    · rw [he] at hk
      simp only [Option.getD_some] at hk
      exact hub (u, l) (alookup_mem he) k hk
  · exact hub p hp k hk

theorem foldl_record_book_inv (u lang : String) (books : List BookInput) :
    ∀ st : UserHistoryStore, StoreInv st →
      StoreInv (books.foldl (record_book u lang) st) := by
  induction books with
  | nil => intro st h; exact h
  | cons b t ih =>
    intro st h
    exact ih _ (record_book_inv u lang st b h)

theorem foldl_record_book_info_some (u lang : String)
    (books : List BookInput) :
    ∀ (st : UserHistoryStore) (q : String) (s : BookSnapshot),
      alookup st.book_info q = some s →
      alookup ((books.foldl (record_book u lang) st)).book_info q = some s := by
  induction books with
  | nil => intro st q s h; exact h
  | cons b t ih =>
    intro st q s h
    exact ih _ q s (record_book_book_info_some u lang b h)

/-- C9: `record_history` preserves the collaborative-index invariant
(every key in either relation direction has a snapshot; rated keys
appear in the book-to-users relation), and never overwrites an existing
first-seen snapshot. -/
theorem record_history_preserves_inv (st : UserHistoryStore)
    (u : String) (books : List BookInput) (lang : String)
    (h : StoreInv st) :
    StoreInv (record_history st u books lang) ∧
    ∀ q s, alookup st.book_info q = some s →
      alookup (record_history st u books lang).book_info q = some s := by
  constructor
  · exact foldl_record_book_inv u lang books _ (setdefault_inv u st h)
  · intro q s hq
    exact foldl_record_book_info_some u lang books _ q s hq

/-- Witness for C9 at a concrete store and call. -/
theorem record_history_preserves_inv_witness :
    StoreInv emptyStore ∧
    (StoreInv (record_history emptyStore "u1"
        [⟨"Dune", "Frank Herbert", some "Sci-Fi", some 5⟩] "en") ∧
      ∀ q s, alookup emptyStore.book_info q = some s →
        alookup (record_history emptyStore "u1"
          [⟨"Dune", "Frank Herbert", some "Sci-Fi", some 5⟩] "en").book_info q
          = some s) :=
  ⟨by decide,
    record_history_preserves_inv emptyStore "u1"
      [⟨"Dune", "Frank Herbert", some "Sci-Fi", some 5⟩] "en" (by decide)⟩

/-! ### Ordering facts for the ranking sort (C3-C5) -/

theorem rankedOf_sorted (settings : Settings) (st : UserHistoryStore)
    (seeds : List BookInput) (exU : String) (exT : List String) :
    List.Sorted rankGE (rankedOf settings st seeds exU exT) :=
  List.sorted_insertionSort rankGE _

theorem mem_rankedOf {settings : Settings} {st : UserHistoryStore}
    {seeds : List BookInput} {exU : String} {exT : List String}
    {e : ℚ × ℕ × String} (h : e ∈ rankedOf settings st seeds exU exT) :
    ∃ kc, kc ∈ countsOf st seeds exU exT ∧
      scoreEntry settings st exU (maxCountOf (countsOf st seeds exU exT)) kc
        = some e := by
  unfold rankedOf at h
  rw [List.mem_insertionSort] at h
  rw [List.mem_filterMap] at h
  exact h

/-- Characterization of `scoreEntry` outputs: the produced key and count
are the candidate's, the quality gate was passed, and the score is the
rounded base or blend formula. -/
theorem scoreEntry_spec {settings : Settings} {st : UserHistoryStore}
    {exU : String} {m : ℕ} {kc : String × ℕ} {s : ℚ} {c : ℕ} {k : String}
    (h : scoreEntry settings st exU m kc = some (s, c, k)) :
    k = kc.1 ∧ c = kc.2 ∧
    (ratingValues st kc.1 exU = [] → s = round2 (cBase kc.2 m)) ∧
    (ratingValues st kc.1 exU ≠ [] →
      settings.PEOPLE_ALSO_MIN_AVG_RATING ≤ cAvg (ratingValues st kc.1 exU) ∧
      s = round2 (cBlend settings (cBase kc.2 m)
        (cAvg (ratingValues st kc.1 exU)))) := by
  unfold scoreEntry at h
  rcases hi : alookup st.book_info kc.1 with _ | info
  · rw [hi] at h; simp at h
  · rw [hi] at h
    simp only [] at h
    by_cases hrv : ratingValues st kc.1 exU = []
    · rw [if_pos hrv] at h
      have h' := Option.some.inj h
      rw [Prod.ext_iff] at h'
      obtain ⟨hs, h2⟩ := h'
      rw [Prod.ext_iff] at h2
      obtain ⟨hc, hk⟩ := h2
      exact ⟨hk.symm, hc.symm, fun _ => hs.symm, fun hne => absurd hrv hne⟩
    · rw [if_neg hrv] at h
      by_cases havg : cAvg (ratingValues st kc.1 exU)
          < settings.PEOPLE_ALSO_MIN_AVG_RATING
      · rw [if_pos havg] at h
        simp at h
      · rw [if_neg havg] at h
        have h' := Option.some.inj h
        rw [Prod.ext_iff] at h'
        obtain ⟨hs, h2⟩ := h'
        rw [Prod.ext_iff] at h2
        obtain ⟨hc, hk⟩ := h2
        exact ⟨hk.symm, hc.symm, fun hrv' => absurd hrv' hrv,
          fun _ => ⟨not_lt.mp havg, hs.symm⟩⟩

theorem buildResults_mem {st : UserHistoryStore} :
    ∀ {l : List (ℚ × ℕ × String)} {limit : ℕ} {it : CoRec},
      it ∈ buildResults st limit l →
      ∃ s c k info, (s, c, k) ∈ l ∧ alookup st.book_info k = some info ∧
        it = ⟨info.title, info.author, info.genre, info.language, s⟩ := by
  intro l
  induction l with
  | nil => intro limit it h; simp [buildResults] at h
  | cons e t ih =>
    intro limit it h
    obtain ⟨s, c, k⟩ := e
    unfold buildResults at h
    rcases hi : alookup st.book_info k with _ | info
    · rw [hi] at h
      simp only [] at h
      obtain ⟨s', c', k', info', hm, hl, he⟩ := ih h
      exact ⟨s', c', k', info', List.mem_cons_of_mem _ hm, hl, he⟩
    · rw [hi] at h
      simp only [] at h
      by_cases hlim : limit ≤ 1
      · rw [if_pos hlim] at h
        simp only [List.mem_singleton] at h
        exact ⟨s, c, k, info, List.mem_cons_self _ _, hi, h⟩
      · rw [if_neg hlim] at h
        rcases List.mem_cons.mp h with h | h
        · exact ⟨s, c, k, info, List.mem_cons_self _ _, hi, h⟩
        · obtain ⟨s', c', k', info', hm, hl, he⟩ := ih h
          exact ⟨s', c', k', info', List.mem_cons_of_mem _ hm, hl, he⟩

theorem buildResults_length {st : UserHistoryStore} :
    ∀ (l : List (ℚ × ℕ × String)) (limit : ℕ), 1 ≤ limit →
      (buildResults st limit l).length ≤ limit := by
  intro l
  induction l with
  | nil => intro limit h; simp [buildResults]
  | cons e t ih =>
    intro limit hlim
    obtain ⟨s, c, k⟩ := e
    unfold buildResults
    rcases hi : alookup st.book_info k with _ | info
    · exact ih limit hlim
    · simp only []
      by_cases h1 : limit ≤ 1
      · rw [if_pos h1]
        simpa using hlim
      · rw [if_neg h1]
        have h2 : 1 ≤ limit - 1 := by omega
        have := ih (limit - 1) h2
        simp only [List.length_cons]
        omega

theorem buildResults_pairwise {st : UserHistoryStore} :
    ∀ {l : List (ℚ × ℕ × String)} {limit : ℕ},
      List.Pairwise (fun x y : ℚ × ℕ × String => y.1 ≤ x.1) l →
      List.Pairwise (fun a b : CoRec => b.score ≤ a.score)
        (buildResults st limit l) := by
  intro l
  induction l with
  | nil => intro limit _; simp [buildResults]
  | cons e t ih =>
    intro limit hp
    obtain ⟨s, c, k⟩ := e
    rw [List.pairwise_cons] at hp
    obtain ⟨hh, hp'⟩ := hp
    unfold buildResults
    rcases hi : alookup st.book_info k with _ | info
    · exact ih hp'
    · simp only []
      by_cases h1 : limit ≤ 1
      · rw [if_pos h1]
        exact List.pairwise_singleton _ _
      · rw [if_neg h1]
        refine List.pairwise_cons.mpr ⟨?_, ih hp'⟩
        intro b hb
        obtain ⟨s', c', k', info', hm, _, he⟩ := buildResults_mem hb
        have hle : s' ≤ s := hh _ hm
        rw [he]
        exact hle

theorem recommend_mem {settings : Settings} {st : UserHistoryStore}
    {seeds : List BookInput} {exU : String} {exT : List String}
    {limit : ℕ} {it : CoRec}
    (h : it ∈ recommend_from_cooccurrence settings st seeds exU exT limit) :
    ∃ s c k info kc,
      (s, c, k) ∈ rankedOf settings st seeds exU exT ∧
      alookup st.book_info k = some info ∧
      it = ⟨info.title, info.author, info.genre, info.language, s⟩ ∧
      kc ∈ countsOf st seeds exU exT ∧
      scoreEntry settings st exU (maxCountOf (countsOf st seeds exU exT)) kc
        = some (s, c, k) := by
  unfold recommend_from_cooccurrence at h
  by_cases hc : (countsOf st seeds exU exT).isEmpty
  · rw [if_pos hc] at h
    simp at h
  · rw [if_neg hc] at h
    obtain ⟨s, c, k, info, hm, hl, he⟩ := buildResults_mem h
    obtain ⟨kc, hkc, hsc⟩ := mem_rankedOf hm
    exact ⟨s, c, k, info, kc, hm, hl, he, hkc, hsc⟩

theorem cBlend_pos {settings : Settings} (base avg : ℚ)
    (hw : 0 < settings.COOCCURRENCE_WEIGHT + settings.RATING_WEIGHT) :
    cBlend settings base avg =
      (settings.COOCCURRENCE_WEIGHT * base
        + settings.RATING_WEIGHT * max 0 (min 1 (avg / 5)))
        / (settings.COOCCURRENCE_WEIGHT + settings.RATING_WEIGHT) := by
  unfold cBlend
  rw [max_eq_left hw.le, if_pos hw]

/-! ### Rounding bounds -/

theorem floor_le_rhe (q : ℚ) : ⌊q⌋ ≤ roundHalfEven q := by
  unfold roundHalfEven
  split
  · exact le_refl _
  · split
    · omega
    · split <;> omega

theorem rhe_ge_int {z : ℤ} {q : ℚ} (h : (z : ℚ) ≤ q) : z ≤ roundHalfEven q :=
  le_trans (Int.le_floor.mpr h) (floor_le_rhe q)

theorem rhe_le_int {z : ℤ} {q : ℚ} (h : q ≤ (z : ℚ)) :
    roundHalfEven q ≤ z := by
  have hf : ⌊q⌋ ≤ z := by
    have := Int.floor_le_floor h
    rwa [Int.floor_intCast] at this
  have hlt : ¬ q - (⌊q⌋ : ℚ) < 1/2 → ⌊q⌋ + 1 ≤ z := by
    intro hr
    have h1 : (⌊q⌋ : ℚ) < q := by
      have : (1 : ℚ)/2 ≤ q - ⌊q⌋ := not_lt.mp hr
      linarith
    have h2 : (⌊q⌋ : ℚ) < (z : ℚ) := lt_of_lt_of_le h1 h
    have : ⌊q⌋ < z := by exact_mod_cast h2
    omega
  unfold roundHalfEven
  split
  · exact hf
  · rename_i hr
    split
    · exact hlt hr
    · split
      · exact hf
      · exact hlt hr

theorem round2_ge {z : ℤ} {θ s : ℚ} (hθ : θ = (z : ℚ)/100) (h : θ ≤ s) :
    θ ≤ round2 s := by
  unfold round2
  rw [hθ] at h ⊢
  have h100 : (z : ℚ) ≤ s * 100 := by
    rw [div_le_iff₀ (by norm_num : (0:ℚ) < 100)] at h
    exact h
  have hz : z ≤ roundHalfEven (s * 100) := rhe_ge_int h100
  rw [div_le_div_iff_of_pos_right (by norm_num : (0:ℚ) < 100)]
  exact_mod_cast hz

theorem round2_le {z : ℤ} {θ s : ℚ} (hθ : θ = (z : ℚ)/100) (h : s ≤ θ) :
    round2 s ≤ θ := by
  unfold round2
  rw [hθ] at h ⊢
  have h100 : s * 100 ≤ (z : ℚ) := by
    rw [le_div_iff₀ (by norm_num : (0:ℚ) < 100)] at h
    exact h
  have hz : roundHalfEven (s * 100) ≤ z := rhe_le_int h100
  rw [div_le_div_iff_of_pos_right (by norm_num : (0:ℚ) < 100)]
  exact_mod_cast hz

/-- C3: the claim states the returned score IS `count / maxCount`
(resp. the blend), but the code rounds every score to two decimals:
candidate B has count 1 and maxCount 3, and its returned score is
0.33, not 1/3. -/
theorem cooccurrence_score_unrounded_cex :
    rankedOf defaultSettings storeABC [bSeed] "me" []
      = [(1, 3, "a|y"), (33/100, 1, "b|z")] ∧
    (recommend_from_cooccurrence defaultSettings storeABC [bSeed] "me" [] 10).map
        (fun it => (it.title, it.score))
      = [("A", 1), ("B", 33/100)] ∧
    ratingValues storeABC "b|z" "me" = [] ∧
    ((33 : ℚ)/100) ≠ (1 : ℚ)/3 := by
  refine ⟨by decide, by decide, by decide, by decide⟩

/-- C3 (amended: every score carries Python's final round-to-2-decimals,
and the code clamps `avgRating/5` into [0,1], a no-op for ratings 1..5):
every returned item with no ratings from other users scores the rounded
`count/maxCount` (`cBase` is `min(1, count/maxCount)`, the code's
redundant clamp), and every returned item with such ratings scores the
rounded blend with the configured weights. -/
theorem cooccurrence_score_formula (settings : Settings)
    (st : UserHistoryStore) (seeds : List BookInput) (exU : String)
    (exT : List String) (limit : ℕ)
    (hw : 0 < settings.COOCCURRENCE_WEIGHT + settings.RATING_WEIGHT) :
    ∀ it ∈ recommend_from_cooccurrence settings st seeds exU exT limit,
      ∃ c k, (k, c) ∈ countsOf st seeds exU exT ∧
        (ratingValues st k exU = [] →
          it.score = round2 (cBase c (maxCountOf (countsOf st seeds exU exT)))) ∧
        (ratingValues st k exU ≠ [] →
          it.score = round2 (
            (settings.COOCCURRENCE_WEIGHT
                * cBase c (maxCountOf (countsOf st seeds exU exT))
              + settings.RATING_WEIGHT
                * max 0 (min 1 (cAvg (ratingValues st k exU) / 5)))
            / (settings.COOCCURRENCE_WEIGHT + settings.RATING_WEIGHT))) := by
  intro it hit
  obtain ⟨s, c, k, info, kc, hrk, hl, he, hkc, hsc⟩ := recommend_mem hit
  obtain ⟨hk, hc, hbase, hblend⟩ := scoreEntry_spec hsc
  subst hk
  subst hc
  have hscore : it.score = s := by rw [he]
  refine ⟨kc.2, kc.1, by simpa using hkc, ?_, ?_⟩
  · intro hrv
    rw [hscore, hbase hrv]
  · intro hrv
    rw [hscore, (hblend hrv).2, cBlend_pos _ _ hw]

/-- C3 witness: the item for candidate A in the concrete store. -/
theorem cooccurrence_score_formula_witness :
    ∃ c k, (k, c) ∈ countsOf storeABC [bSeed] "me" [] ∧
      (ratingValues storeABC k "me" = [] →
        (⟨"A", "Y", none, "en", 1⟩ : CoRec).score
          = round2 (cBase c (maxCountOf (countsOf storeABC [bSeed] "me" [])))) ∧
      (ratingValues storeABC k "me" ≠ [] →
        (⟨"A", "Y", none, "en", 1⟩ : CoRec).score = round2 (
          (defaultSettings.COOCCURRENCE_WEIGHT
              * cBase c (maxCountOf (countsOf storeABC [bSeed] "me" []))
            + defaultSettings.RATING_WEIGHT
              * max 0 (min 1 (cAvg (ratingValues storeABC k "me") / 5)))
          / (defaultSettings.COOCCURRENCE_WEIGHT
            + defaultSettings.RATING_WEIGHT))) :=
  cooccurrence_score_formula defaultSettings storeABC [bSeed] "me" [] 10
    (by decide) ⟨"A", "Y", none, "en", 1⟩ (by decide)

/-- C4: every item in the collaborative results comes from a candidate
key whose average rating over raters other than the excluded user — when
any such ratings exist — is at least `PEOPLE_ALSO_MIN_AVG_RATING`; a
candidate with average strictly below the gate never appears. -/
theorem cooccurrence_quality_gate (settings : Settings)
    (st : UserHistoryStore) (seeds : List BookInput) (exU : String)
    (exT : List String) (limit : ℕ) :
    ∀ it ∈ recommend_from_cooccurrence settings st seeds exU exT limit,
      ∃ k info, alookup st.book_info k = some info ∧
        it = ⟨info.title, info.author, info.genre, info.language, it.score⟩ ∧
        (ratingValues st k exU ≠ [] →
          settings.PEOPLE_ALSO_MIN_AVG_RATING ≤
            cAvg (ratingValues st k exU)) := by
  intro it hit
  obtain ⟨s, c, k, info, kc, hrk, hl, he, hkc, hsc⟩ := recommend_mem hit
  obtain ⟨hk, hc, hbase, hblend⟩ := scoreEntry_spec hsc
  subst hk
  refine ⟨kc.1, info, hl, ?_, fun hrv => (hblend hrv).1⟩
  rw [he]

/-- C4 witness: the concrete store with one rated candidate kept. -/
theorem cooccurrence_quality_gate_witness :
    ∃ k info, alookup storeABC.book_info k = some info ∧
      (⟨"A", "Y", none, "en", 1⟩ : CoRec)
        = ⟨info.title, info.author, info.genre, info.language,
            (⟨"A", "Y", none, "en", 1⟩ : CoRec).score⟩ ∧
      (ratingValues storeABC k "me" ≠ [] →
        defaultSettings.PEOPLE_ALSO_MIN_AVG_RATING ≤
          cAvg (ratingValues storeABC k "me")) :=
  cooccurrence_quality_gate defaultSettings storeABC [bSeed] "me" [] 10
    ⟨"A", "Y", none, "en", 1⟩ (by decide)

/-- C5 counterexample: the truncation loop appends before checking the
length bound, so with `limit = 0` (and a non-empty candidate set) the
returned list still has one entry — it is not truncated to at most
`limit`. -/
theorem recommend_limit_zero_cex :
    ¬ ((recommend_from_cooccurrence defaultSettings storeABC [bSeed] "me" []
        0).length ≤ 0) := by
  decide

/-- C5 (amended: for `limit ≥ 1`; at `limit = 0` the code still returns
one entry): the collaborative results are sorted non-increasing by
score; the underlying ranked list breaks score ties by larger raw
co-occurrence count first; and the result has at most `limit` entries. -/
theorem recommend_sorted_tiebreak_truncated (settings : Settings)
    (st : UserHistoryStore) (seeds : List BookInput) (exU : String)
    (exT : List String) (limit : ℕ) (hlim : 1 ≤ limit) :
    (recommend_from_cooccurrence settings st seeds exU exT limit).length
        ≤ limit
    ∧ List.Pairwise (fun a b : CoRec => b.score ≤ a.score)
        (recommend_from_cooccurrence settings st seeds exU exT limit)
    ∧ List.Pairwise (fun a b : ℚ × ℕ × String =>
        b.1 < a.1 ∨ (b.1 = a.1 ∧ b.2.1 ≤ a.2.1))
        (rankedOf settings st seeds exU exT) := by
  have hranked : List.Pairwise (fun x y : ℚ × ℕ × String => y.1 ≤ x.1)
      (rankedOf settings st seeds exU exT) := by
    refine (rankedOf_sorted settings st seeds exU exT).imp ?_
    intro a b hab
    rcases hab with h | ⟨h, _⟩
    · exact h.le
    · exact h.le
  refine ⟨?_, ?_, ?_⟩
  · unfold recommend_from_cooccurrence
    split
    · simp
    · exact buildResults_length _ limit hlim
  · unfold recommend_from_cooccurrence
    split
    · simp
    · exact buildResults_pairwise hranked
  · refine (rankedOf_sorted settings st seeds exU exT).imp ?_
    intro a b hab
    rcases hab with h | ⟨h, h2⟩
    · exact Or.inl h
    · refine Or.inr ⟨h, ?_⟩
      rcases h2 with h2 | ⟨h2, _⟩
      · exact h2.le
      · exact h2.le

/-- C5 witness at the concrete store with the default limit. -/
theorem recommend_sorted_tiebreak_truncated_witness :
    (recommend_from_cooccurrence defaultSettings storeABC [bSeed] "me" []
        5).length ≤ 5
    ∧ List.Pairwise (fun a b : CoRec => b.score ≤ a.score)
        (recommend_from_cooccurrence defaultSettings storeABC [bSeed] "me" [] 5)
    ∧ List.Pairwise (fun a b : ℚ × ℕ × String =>
        b.1 < a.1 ∨ (b.1 = a.1 ∧ b.2.1 ≤ a.2.1))
        (rankedOf defaultSettings storeABC [bSeed] "me" []) :=
  recommend_sorted_tiebreak_truncated defaultSettings storeABC [bSeed] "me" []
    5 (by decide)

/-! ### Similarity-threshold shelves (C7) -/

theorem items_of_filtered {settings : Settings} {results : List Hit}
    {it : RecommendedBook}
    (hit : it ∈ (results.filter
      (fun r => settings.SIMILARITY_THRESHOLD ≤ r.score)).map mkBook)
    {z : ℤ} (hz : settings.SIMILARITY_THRESHOLD = (z : ℚ)/100) :
    settings.SIMILARITY_THRESHOLD ≤ it.match_score := by
  rcases List.mem_map.mp hit with ⟨r, hr, he⟩
  have hsc : settings.SIMILARITY_THRESHOLD ≤ r.score := by
    have := (List.mem_filter.mp hr).2
    simpa using this
  subst he
  show settings.SIMILARITY_THRESHOLD ≤ round2 r.score
  exact round2_ge hz hsc

/-- C7 counterexample: with `similarityThreshold = 0.304` and a backend
hit scored exactly 0.304, the stored `matchScore` is the rounded 0.30,
strictly below the threshold — the claim fails for this knob value. -/
theorem similarity_threshold_cex :
    ((get_similar_to_book ⟨5, 38/125, 7/10, 3/10, 3⟩
        (fun _ => some [⟨"T", "A", "d", "g", "en", 38/125⟩]) dune "en"
        []).map (fun cat => cat.items.map (fun it => it.match_score)))
      = some [3/10]
    ∧ (3 : ℚ)/10 < (38 : ℚ)/125 := by
  exact ⟨by decide, by decide⟩

/-- C7 (amended: for threshold values that are a whole number of
hundredths, which includes the default 0.3 — `matchScore` is the raw
score rounded to two decimals, so for other threshold values a rounded
score can drop below the threshold): every item of a
content-similarity, author or genre shelf has
`matchScore ≥ similarityThreshold`. -/
theorem similarity_threshold_filter (settings : Settings)
    (backend : SearchQuery → Option (List Hit)) (book : BookInput)
    (author genre language : String) (excl : List String)
    (hθ : ∃ z : ℤ, settings.SIMILARITY_THRESHOLD = (z : ℚ)/100) :
    (∀ cat, get_similar_to_book settings backend book language excl
        = some cat →
      ∀ it ∈ cat.items, settings.SIMILARITY_THRESHOLD ≤ it.match_score) ∧
    (∀ cat, get_by_author settings backend author language excl
        = some cat →
      ∀ it ∈ cat.items, settings.SIMILARITY_THRESHOLD ≤ it.match_score) ∧
    (∀ cat, get_by_genre settings backend genre language excl
        = some cat →
      ∀ it ∈ cat.items, settings.SIMILARITY_THRESHOLD ≤ it.match_score) := by
  obtain ⟨z, hz⟩ := hθ
  refine ⟨?_, ?_, ?_⟩
  · intro cat hcat it hit
    rcases hs : search_similar backend
        (create_book_embedding_text book.title book.author ""
          (book.genre.getD ""))
        (some language) none settings.MAX_RECOMMENDATIONS_PER_CATEGORY
        excl with _ | results
    · simp only [get_similar_to_book, hs] at hcat
      exact Option.noConfusion hcat
    · simp only [get_similar_to_book, hs, Option.some.injEq] at hcat
      rw [← hcat] at hit
      exact items_of_filtered hit hz
  · intro cat hcat it hit
    by_cases hu : is_unknown_author author
    · simp only [get_by_author, if_pos hu, Option.some.injEq] at hcat
      rw [← hcat] at hit
      simp at hit
    · rcases hs : search_by_author backend author (some language)
          settings.MAX_RECOMMENDATIONS_PER_CATEGORY excl with _ | results
      · simp only [get_by_author, if_neg hu, hs] at hcat
        exact Option.noConfusion hcat
      · simp only [get_by_author, if_neg hu, hs, Option.some.injEq] at hcat
        rw [← hcat] at hit
        exact items_of_filtered hit hz
  · intro cat hcat it hit
    rcases hs : search_by_genre backend genre (some language)
        settings.MAX_RECOMMENDATIONS_PER_CATEGORY excl with _ | results
    · simp only [get_by_genre, hs] at hcat
      exact Option.noConfusion hcat
    · simp only [get_by_genre, hs, Option.some.injEq] at hcat
      rw [← hcat] at hit
      exact items_of_filtered hit hz

/-- C7 witness: default threshold 0.3 = 30/100 at a concrete backend. -/
theorem similarity_threshold_filter_witness :
    (∀ cat, get_similar_to_book defaultSettings okBackend dune "en" []
        = some cat →
      ∀ it ∈ cat.items,
        defaultSettings.SIMILARITY_THRESHOLD ≤ it.match_score) ∧
    (∀ cat, get_by_author defaultSettings okBackend "Frank Herbert" "en" []
        = some cat →
      ∀ it ∈ cat.items,
        defaultSettings.SIMILARITY_THRESHOLD ≤ it.match_score) ∧
    (∀ cat, get_by_genre defaultSettings okBackend "Sci-Fi" "en" []
        = some cat →
      ∀ it ∈ cat.items,
        defaultSettings.SIMILARITY_THRESHOLD ≤ it.match_score) :=
  similarity_threshold_filter defaultSettings okBackend dune
    "Frank Herbert" "Sci-Fi" "en" [] ⟨30, by decide⟩

/-! ### The discoveries shelf (C8) -/

theorem discoveriesLoop_mem :
    ∀ {l : List Hit} {m : ℕ} {b : RecommendedBook},
      b ∈ discoveriesLoop m l →
      ∃ r ∈ l, (2/5 ≤ r.score ∧ r.score ≤ 3/4) ∧ b = mkBook r := by
  intro l
  induction l with
  | nil => intro m b h; simp [discoveriesLoop] at h
  | cons r t ih =>
    intro m b h
    unfold discoveriesLoop at h
    by_cases hacc : 2/5 ≤ r.score ∧ r.score ≤ 3/4
    · rw [if_pos hacc] at h
      by_cases hm : m ≤ 1
      · rw [if_pos hm] at h
        simp only [List.mem_singleton] at h
        exact ⟨r, List.mem_cons_self _ _, hacc, h⟩
      · rw [if_neg hm] at h
        rcases List.mem_cons.mp h with h | h
        · exact ⟨r, List.mem_cons_self _ _, hacc, h⟩
        · obtain ⟨r', hr', hb', he'⟩ := ih h
          exact ⟨r', List.mem_cons_of_mem _ hr', hb', he'⟩
    · rw [if_neg hacc] at h
      obtain ⟨r', hr', hb', he'⟩ := ih h
      exact ⟨r', List.mem_cons_of_mem _ hr', hb', he'⟩

theorem discoveriesLoop_eq_take :
    ∀ (l : List Hit) (m : ℕ), 1 ≤ m →
      discoveriesLoop m l =
        ((l.filter (fun r =>
          decide (2/5 ≤ r.score ∧ r.score ≤ 3/4))).take m).map mkBook := by
  intro l
  induction l with
  | nil => intro m _; simp [discoveriesLoop]
  | cons r t ih =>
    intro m hm
    unfold discoveriesLoop
    by_cases hacc : 2/5 ≤ r.score ∧ r.score ≤ 3/4
    · rw [if_pos hacc]
      rw [List.filter_cons_of_pos (by simpa using hacc)]
      by_cases h1 : m ≤ 1
      · rw [if_pos h1]
        have : m = 1 := by omega
        subst this
        simp
      · rw [if_neg h1]
        obtain ⟨n, rfl⟩ : ∃ n, m = n + 1 := ⟨m - 1, by omega⟩
        rw [List.take_succ_cons, List.map_cons]
        simp only [Nat.add_sub_cancel]
        rw [ih n (by omega)]
    · rw [if_neg hacc]
      rw [List.filter_cons_of_neg (by simpa using hacc)]
      exact ih m hm

/-- C8: every item on the discoveries shelf has its (rounded) score in
the closed band [0.4, 0.75]; and (for `maxPerCategory ≥ 1`, which holds
for the default 5) the shelf is exactly the in-order prefix of the
band-passing results from a pool requested with limit
`2 × maxPerCategory`, truncated to `maxPerCategory` accepted items. -/
theorem discoveries_shelf_spec (settings : Settings)
    (backend : SearchQuery → Option (List Hit)) (history : List BookInput)
    (language : String) (excl : List String) :
    ∀ cat, get_discoveries settings backend history language excl
        = some cat →
      (∀ it ∈ cat.items,
        2/5 ≤ it.match_score ∧ it.match_score ≤ 3/4) ∧
      (1 ≤ settings.MAX_RECOMMENDATIONS_PER_CATEGORY →
        cat.items.length ≤ settings.MAX_RECOMMENDATIONS_PER_CATEGORY ∧
        ∃ results, search_similar backend
            ("Diverse interesting books like " ++ String.intercalate " | "
              (history.map (fun b => b.title)))
            (some language) none
            (settings.MAX_RECOMMENDATIONS_PER_CATEGORY * 2) excl
          = some results ∧
          cat.items = ((results.filter (fun r =>
              decide (2/5 ≤ r.score ∧ r.score ≤ 3/4))).take
            settings.MAX_RECOMMENDATIONS_PER_CATEGORY).map mkBook) := by
  intro cat hcat
  rcases hs : search_similar backend
      ("Diverse interesting books like " ++ String.intercalate " | "
        (history.map (fun b => b.title)))
      (some language) none
      (settings.MAX_RECOMMENDATIONS_PER_CATEGORY * 2) excl with _ | results
  · simp only [get_discoveries, hs] at hcat
    exact Option.noConfusion hcat
  · simp only [get_discoveries, hs, Option.some.injEq] at hcat
    have hitems : cat.items =
        discoveriesLoop settings.MAX_RECOMMENDATIONS_PER_CATEGORY results := by
      rw [← hcat]
    constructor
    · intro it hit
      rw [hitems] at hit
      obtain ⟨r, _, ⟨hlo, hhi⟩, he⟩ := discoveriesLoop_mem hit
      subst he
      constructor
      · exact round2_ge (by norm_num : (2:ℚ)/5 = ((40:ℤ) : ℚ)/100) hlo
      · exact round2_le (by norm_num : (3:ℚ)/4 = ((75:ℤ) : ℚ)/100) hhi
    · intro hmax
      have heq := discoveriesLoop_eq_take results
        settings.MAX_RECOMMENDATIONS_PER_CATEGORY hmax
      refine ⟨?_, results, rfl, by rw [hitems, heq]⟩
      rw [hitems, heq]
      simp only [List.length_map]
      exact le_trans (List.length_take_le _ _) (le_refl _)

/-- C8 witness at a concrete backend and the default configuration. -/
theorem discoveries_shelf_spec_witness :
    (∀ it ∈ (⟨"Discoveries for You", "serendipity",
        [mkBook hitOther]⟩ : RecommendationCategory).items,
      2/5 ≤ it.match_score ∧ it.match_score ≤ 3/4) ∧
    (1 ≤ defaultSettings.MAX_RECOMMENDATIONS_PER_CATEGORY →
      (⟨"Discoveries for You", "serendipity",
        [mkBook hitOther]⟩ : RecommendationCategory).items.length
          ≤ defaultSettings.MAX_RECOMMENDATIONS_PER_CATEGORY ∧
      ∃ results, search_similar okBackend
          ("Diverse interesting books like " ++ String.intercalate " | "
            ([dune].map (fun b => b.title)))
          (some "en") none
          (defaultSettings.MAX_RECOMMENDATIONS_PER_CATEGORY * 2) []
        = some results ∧
        (⟨"Discoveries for You", "serendipity",
          [mkBook hitOther]⟩ : RecommendationCategory).items
          = ((results.filter (fun r =>
              decide (2/5 ≤ r.score ∧ r.score ≤ 3/4))).take
            defaultSettings.MAX_RECOMMENDATIONS_PER_CATEGORY).map mkBook) :=
  discoveries_shelf_spec defaultSettings okBackend [dune] "en" []
    ⟨"Discoveries for You", "serendipity", [mkBook hitOther]⟩ (by decide)

/-! ### Failure propagation (C2) -/

/-- C2 counterexample: when the Similarity Backend call for the
content-similarity shelf raises, `generate` returns no Response at all
(`none`), although the very same request against a backend that only
differs on that one query yields a Response with one shelf — the
remaining shelves are not computed and no partial Response is built. -/
theorem per_shelf_recovery_cex :
    generate_recommendations defaultSettings failBackend emptyStore duneReq
      0 "anon" = none
    ∧ (generate_recommendations defaultSettings okBackend emptyStore duneReq
        0 "anon").map (fun p => p.1.recommendations.length) = some 1 := by
  exact ⟨by decide, by decide⟩

/-- C2 (amended: the engine has no per-shelf error recovery — an
exception from the backend call of the first shelf propagates and aborts
the whole request, producing no Response): if the content-similarity
backend call fails, `generate` returns `none`. -/
theorem backend_failure_aborts (settings : Settings)
    (backend : SearchQuery → Option (List Hit)) (st : UserHistoryStore)
    (request : RecommendationRequest) (seedChoice : ℕ) (anonId : String)
    (seed_book : BookInput)
    (hs : pick_seed_book request.history seedChoice = some seed_book)
    (hb : backend ⟨create_book_embedding_text seed_book.title
        seed_book.author "" (seed_book.genre.getD ""),
      some request.preferred_language, none,
      settings.MAX_RECOMMENDATIONS_PER_CATEGORY +
        (setUnion [] (request.history.map (fun b => b.title))).length⟩
      = none) :
    generate_recommendations settings backend st request seedChoice anonId
      = none := by
  have hsim : get_similar_to_book settings backend seed_book
      request.preferred_language
      (setUnion [] (request.history.map (fun b => b.title))) = none := by
    simp only [get_similar_to_book, search_similar, hb]
  simp only [generate_recommendations, hs, hsim]

/-- C2 witness: the concrete failing backend. -/
theorem backend_failure_aborts_witness :
    generate_recommendations defaultSettings failBackend emptyStore duneReq
      0 "anon" = none :=
  backend_failure_aborts defaultSettings failBackend emptyStore duneReq 0
    "anon" dune (by decide) (by decide)

/-! ### Empty user id (C10) -/

/-- C10: an empty-string `user_id` is treated exactly as an absent one —
the request resolves to the generated anonymous id, which is then both
the excluded user of the collaborative shelf and the key under which the
history is recorded, so the whole computation coincides with the
no-user-id computation. -/
theorem empty_user_id_is_anonymous (settings : Settings)
    (backend : SearchQuery → Option (List Hit)) (st : UserHistoryStore)
    (lang : String) (history : List BookInput) (seedChoice : ℕ)
    (anonId : String) :
    generate_recommendations settings backend st ⟨some "", lang, history⟩
        seedChoice anonId
      = generate_recommendations settings backend st ⟨none, lang, history⟩
        seedChoice anonId
    ∧ resolveUserId (some "") anonId = anonId
    ∧ resolveUserId none anonId = anonId := by
  refine ⟨?_, by simp [resolveUserId], rfl⟩
  simp [generate_recommendations, resolveUserId]

/-! ### Cross-shelf non-redundancy (C1) -/

theorem mem_sinsert_of_mem {s : List String} {t : String} (x : String)
    (h : t ∈ s) : t ∈ sinsert s x := by
  unfold sinsert
  split
  · exact h
  · simp [h]

theorem mem_setUnion_left {ts : List String} :
    ∀ {s : List String} {t : String}, t ∈ s → t ∈ setUnion s ts := by
  induction ts with
  | nil => intro s t h; exact h
  | cons a ts' ih =>
    intro s t h
    show t ∈ setUnion (sinsert s a) ts'
    exact ih (mem_sinsert_of_mem a h)

theorem mem_setUnion_right {ts : List String} :
    ∀ {s : List String} {t : String}, t ∈ ts → t ∈ setUnion s ts := by
  induction ts with
  | nil => intro s t h; simp at h
  | cons a ts' ih =>
    intro s t h
    rcases List.mem_cons.mp h with h | h
    · subst h
      show t ∈ setUnion (sinsert s t) ts'
      exact mem_setUnion_left (self_mem_sinsert s t)
    · exact ih h

theorem searchFilter_not_excluded {excl : List String} :
    ∀ {l : List Hit} {limit : ℕ} {h : Hit},
      h ∈ searchFilter excl limit l → h.title ∉ excl := by
  intro l
  induction l with
  | nil => intro limit h hm; simp [searchFilter] at hm
  | cons a t ih =>
    intro limit h hm
    unfold searchFilter at hm
    by_cases hc : excl ≠ [] ∧ a.title ∈ excl
    · rw [if_pos hc] at hm
      exact ih hm
    · rw [if_neg hc] at hm
      push_neg at hc
      by_cases h1 : limit ≤ 1
      · rw [if_pos h1] at hm
        simp only [List.mem_singleton] at hm
        subst hm
        by_cases he : excl = []
        · subst he; simp
        · exact hc he
      · rw [if_neg h1] at hm
        rcases List.mem_cons.mp hm with hm | hm
        · subst hm
          by_cases he : excl = []
          · subst he; simp
          · exact hc he
        · exact ih hm

theorem get_similar_fresh {settings : Settings}
    {backend : SearchQuery → Option (List Hit)} {book : BookInput}
    {language : String} {excl : List String} {cat : RecommendationCategory}
    (h : get_similar_to_book settings backend book language excl
      = some cat) :
    ∀ t ∈ shelfTitles cat, t ∉ excl := by
  rcases hb : backend ⟨create_book_embedding_text book.title book.author ""
      (book.genre.getD ""), some language, none,
      settings.MAX_RECOMMENDATIONS_PER_CATEGORY + excl.length⟩
    with _ | pts
  · simp only [get_similar_to_book, search_similar, hb] at h
    exact Option.noConfusion h
  · simp only [get_similar_to_book, search_similar, hb,
      Option.some.injEq] at h
    rw [← h]
    intro t ht
    simp only [shelfTitles, List.mem_map] at ht
    obtain ⟨it, hit, rfl⟩ := ht
    obtain ⟨r, hr, rfl⟩ := hit
    exact searchFilter_not_excluded (List.mem_filter.mp hr).1

theorem get_author_fresh {settings : Settings}
    {backend : SearchQuery → Option (List Hit)} {author language : String}
    {excl : List String} {cat : RecommendationCategory}
    (h : get_by_author settings backend author language excl = some cat) :
    ∀ t ∈ shelfTitles cat, t ∉ excl := by
  by_cases hu : is_unknown_author author
  · simp only [get_by_author, if_pos hu, Option.some.injEq] at h
    rw [← h]
    intro t ht
    simp [shelfTitles] at ht
  · rcases hb : backend ⟨"Books by " ++ author, some language, none,
        settings.MAX_RECOMMENDATIONS_PER_CATEGORY + excl.length⟩
      with _ | pts
    · simp only [get_by_author, if_neg hu, search_by_author,
        search_similar, hb] at h
      exact Option.noConfusion h
    · simp only [get_by_author, if_neg hu, search_by_author,
        search_similar, hb, Option.some.injEq] at h
      rw [← h]
      intro t ht
      simp only [shelfTitles, List.mem_map] at ht
      obtain ⟨it, hit, rfl⟩ := ht
      obtain ⟨r, hr, rfl⟩ := hit
      exact searchFilter_not_excluded (List.mem_filter.mp hr).1

theorem get_genre_fresh {settings : Settings}
    {backend : SearchQuery → Option (List Hit)} {genre language : String}
    {excl : List String} {cat : RecommendationCategory}
    (h : get_by_genre settings backend genre language excl = some cat) :
    ∀ t ∈ shelfTitles cat, t ∉ excl := by
  rcases hb : backend ⟨"Best " ++ genre ++ " books", some language,
      some genre, settings.MAX_RECOMMENDATIONS_PER_CATEGORY + excl.length⟩
    with _ | pts
  · simp only [get_by_genre, search_by_genre, search_similar, hb] at h
    exact Option.noConfusion h
  · simp only [get_by_genre, search_by_genre, search_similar, hb,
      Option.some.injEq] at h
    rw [← h]
    intro t ht
    simp only [shelfTitles, List.mem_map] at ht
    obtain ⟨it, hit, rfl⟩ := ht
    obtain ⟨r, hr, rfl⟩ := hit
    exact searchFilter_not_excluded (List.mem_filter.mp hr).1

theorem get_discoveries_fresh {settings : Settings}
    {backend : SearchQuery → Option (List Hit)} {history : List BookInput}
    {language : String} {excl : List String} {cat : RecommendationCategory}
    (h : get_discoveries settings backend history language excl
      = some cat) :
    ∀ t ∈ shelfTitles cat, t ∉ excl := by
  rcases hb : backend ⟨"Diverse interesting books like "
      ++ String.intercalate " | " (history.map (fun b => b.title)),
      some language, none,
      settings.MAX_RECOMMENDATIONS_PER_CATEGORY * 2 + excl.length⟩
    with _ | pts
  · simp only [get_discoveries, search_similar, hb] at h
    exact Option.noConfusion h
  · simp only [get_discoveries, search_similar, hb,
      Option.some.injEq] at h
    rw [← h]
    intro t ht
    simp only [shelfTitles, List.mem_map] at ht
    obtain ⟨it, hit, rfl⟩ := ht
    obtain ⟨r, hr, _, rfl⟩ := discoveriesLoop_mem hit
    exact searchFilter_not_excluded hr

theorem mem_bumpCount {m : List (String × ℕ)} {k : String}
    {p : String × ℕ} (h : p ∈ bumpCount m k) : p.1 = k ∨ p ∈ m := by
  unfold bumpCount at h
  rcases hl : alookup m k with _ | c
  · rw [hl] at h
    rcases List.mem_append.mp h with h | h
    · exact Or.inr h
    · simp only [List.mem_singleton] at h
      subst h
      exact Or.inl rfl
  · rw [hl] at h
    rcases mem_aset h with h | h
    · subst h
      exact Or.inl rfl
    · exact Or.inr h

theorem countBook_mem {st : UserHistoryStore} {skeys exT : List String}
    {m : List (String × ℕ)} {k : String} {p : String × ℕ}
    (hm : ∀ q ∈ m, ∃ info, alookup st.book_info q.1 = some info ∧
      info.title ∉ exT)
    (h : p ∈ countBook st skeys exT m k) :
    ∃ info, alookup st.book_info p.1 = some info ∧ info.title ∉ exT := by
  unfold countBook at h
  by_cases hks : k ∈ skeys
  · rw [if_pos hks] at h
    exact hm p h
  · rw [if_neg hks] at h
    rcases hl : alookup st.book_info k with _ | info
    · rw [hl] at h
      exact hm p h
    · rw [hl] at h
      simp only [] at h
      by_cases ht : info.title ∈ exT
      · rw [if_pos ht] at h
        exact hm p h
      · rw [if_neg ht] at h
        rcases mem_bumpCount h with h | h
        · exact ⟨info, h ▸ hl, ht⟩
        · exact hm p h

theorem countUser_mem {st : UserHistoryStore} {skeys exT : List String}
    {u : String} {p : String × ℕ} :
    ∀ {m : List (String × ℕ)},
      (∀ q ∈ m, ∃ info, alookup st.book_info q.1 = some info ∧
        info.title ∉ exT) →
      p ∈ countUser st skeys exT m u →
      ∃ info, alookup st.book_info p.1 = some info ∧ info.title ∉ exT := by
  unfold countUser
  generalize (alookup st.user_books u).getD [] = books
  induction books with
  | nil => intro m hm h; exact hm p h
  | cons k bs ih =>
    intro m hm h
    rw [List.foldl_cons] at h
    refine ih ?_ h
    intro q hq
    exact countBook_mem hm hq

theorem buildCounts_mem {st : UserHistoryStore} {skeys exT : List String}
    {users : List String} {p : String × ℕ}
    (h : p ∈ buildCounts st skeys exT users) :
    ∃ info, alookup st.book_info p.1 = some info ∧ info.title ∉ exT := by
  unfold buildCounts at h
  suffices key : ∀ (us : List String) (m : List (String × ℕ)),
      (∀ q ∈ m, ∃ info, alookup st.book_info q.1 = some info ∧
        info.title ∉ exT) →
      p ∈ us.foldl (countUser st skeys exT) m →
      ∃ info, alookup st.book_info p.1 = some info ∧ info.title ∉ exT by
    exact key users [] (by simp) h
  intro us
  induction us with
  | nil => intro m hm h'; exact hm p h'
  | cons u us' ih =>
    intro m hm h'
    rw [List.foldl_cons] at h'
    refine ih _ ?_ h'
    intro q hq
    exact countUser_mem hm hq

theorem people_also_fresh (settings : Settings) (st : UserHistoryStore)
    (seed : BookInput) (language : String) (excl : List String)
    (uid : String) :
    ∀ t ∈ shelfTitles
      (get_people_also_added settings st seed language excl uid),
      t ∉ excl := by
  intro t ht
  simp only [get_people_also_added, shelfTitles, List.mem_map] at ht
  obtain ⟨it, hit, rfl⟩ := ht
  obtain ⟨r, hr, rfl⟩ := hit
  obtain ⟨s, c, k, info, kc, hrk, hl, he, hkc, hsc⟩ := recommend_mem hr
  obtain ⟨hk, _, _, _⟩ := scoreEntry_spec hsc
  subst hk
  simp only [countsOf] at hkc
  obtain ⟨info', hl', ht'⟩ := buildCounts_mem hkc
  have hinfo : info = info' := by
    rw [hl] at hl'
    exact Option.some.inj hl'
  rw [he]
  show info.title ∉ excl
  rw [hinfo]
  exact ht'

theorem freshChain_snoc :
    ∀ {excl : List String} {cats : List RecommendationCategory}
      {c : RecommendationCategory},
      FreshChain excl cats →
      (∀ t ∈ shelfTitles c, t ∉ excl ∧ ∀ c' ∈ cats, t ∉ shelfTitles c') →
      FreshChain excl (cats ++ [c]) := by
  intro excl cats
  induction cats generalizing excl with
  | nil =>
    intro c _ h2
    exact ⟨fun t ht => (h2 t ht).1, trivial⟩
  | cons c0 rest ih =>
    intro c hf h2
    obtain ⟨h0, hrest⟩ := hf
    refine ⟨h0, ih hrest ?_⟩
    intro t ht
    obtain ⟨hne, hcs⟩ := h2 t ht
    refine ⟨?_, fun c' hc' => hcs c' (List.mem_cons_of_mem _ hc')⟩
    intro hmem
    rcases List.mem_append.mp hmem with h | h
    · exact hne h
    · exact hcs c0 (List.mem_cons_self _ _) h

theorem appendCat_ok {hist : List String}
    {acc : List RecommendationCategory × List String}
    {cat : RecommendationCategory} (ha : AccOK hist acc)
    (hf : ∀ t ∈ shelfTitles cat, t ∉ acc.2) :
    AccOK hist (appendCat acc cat) := by
  obtain ⟨h1, h2, h3⟩ := ha
  unfold appendCat
  by_cases he : cat.items.isEmpty
  · rw [if_pos he]
    exact ⟨h1, h2, h3⟩
  · rw [if_neg he]
    refine ⟨?_, ?_, ?_⟩
    · apply freshChain_snoc h1
      intro t ht
      exact ⟨fun hm => hf t ht (h2 t hm),
        fun c' hc' hm => hf t ht (h3 c' hc' t hm)⟩
    · intro t hm
      exact mem_setUnion_left (h2 t hm)
    · intro c hc t ht
      rcases List.mem_append.mp hc with hc | hc
      · exact mem_setUnion_left (h3 c hc t ht)
      · simp only [List.mem_singleton] at hc
        subst hc
        exact mem_setUnion_right ht

theorem authorShelves_ok {settings : Settings}
    {backend : SearchQuery → Option (List Hit)} {language : String} :
    ∀ {pairs : List (String × ℕ)}
      {acc acc' : List RecommendationCategory × List String}
      {hist : List String},
      AccOK hist acc →
      authorShelves settings backend language pairs acc = some acc' →
      AccOK hist acc' := by
  intro pairs
  induction pairs with
  | nil =>
    intro acc acc' hist ha h
    unfold authorShelves at h
    rw [← Option.some.inj h]
    exact ha
  | cons p rest ih =>
    intro acc acc' hist ha h
    obtain ⟨author, cnt⟩ := p
    unfold authorShelves at h
    by_cases hcnt : 1 ≤ cnt
    · rw [if_pos hcnt] at h
      rcases hg : get_by_author settings backend author language acc.2
        with _ | cat
      · rw [hg] at h
        exact Option.noConfusion h
      · rw [hg] at h
        exact ih (appendCat_ok ha (get_author_fresh hg)) h
    · rw [if_neg hcnt] at h
      exact ih ha h

theorem genreShelves_ok {settings : Settings}
    {backend : SearchQuery → Option (List Hit)} {language : String} :
    ∀ {pairs : List (String × ℕ)}
      {acc acc' : List RecommendationCategory × List String}
      {hist : List String},
      AccOK hist acc →
      genreShelves settings backend language pairs acc = some acc' →
      AccOK hist acc' := by
  intro pairs
  induction pairs with
  | nil =>
    intro acc acc' hist ha h
    unfold genreShelves at h
    rw [← Option.some.inj h]
    exact ha
  | cons p rest ih =>
    intro acc acc' hist ha h
    obtain ⟨genre, cnt⟩ := p
    unfold genreShelves at h
    rcases hg : get_by_genre settings backend genre language acc.2
      with _ | cat
    · rw [hg] at h
      exact Option.noConfusion h
    · rw [hg] at h
      exact ih (appendCat_ok ha (get_genre_fresh hg)) h

/-- C1: for every request with non-empty history (and any backend
behavior, store contents, seed draw and anonymous id), a successfully
generated response is a fresh chain over the literal history titles — no
shelf item repeats a title from the input history, nor a title of an
item on any earlier shelf of the same response. -/
theorem generate_no_cross_shelf_repeats (settings : Settings)
    (backend : SearchQuery → Option (List Hit)) (st : UserHistoryStore)
    (request : RecommendationRequest) (seedChoice : ℕ) (anonId : String)
    (resp : RecommendationResponse) (st' : UserHistoryStore)
    (hh : request.history ≠ [])
    (hg : generate_recommendations settings backend st request seedChoice
      anonId = some (resp, st')) :
    FreshChain (request.history.map (fun b => b.title))
      resp.recommendations := by
  simp only [generate_recommendations] at hg
  rcases hseed : pick_seed_book request.history seedChoice with _ | seed
  · rw [hseed] at hg
    exact Option.noConfusion hg
  · rw [hseed] at hg
    simp only [] at hg
    have ha0 : AccOK (request.history.map (fun b => b.title))
        ([], setUnion [] (request.history.map (fun b => b.title))) := by
      refine ⟨trivial, ?_, ?_⟩
      · intro t ht
        exact mem_setUnion_right ht
      · intro c hc
        simp at hc
    rcases hc1 : get_similar_to_book settings backend seed
        request.preferred_language
        (setUnion [] (request.history.map (fun b => b.title)))
      with _ | cat1
    · rw [hc1] at hg
      exact Option.noConfusion hg
    · rw [hc1] at hg
      simp only [] at hg
      have ha1 := appendCat_ok ha0 (get_similar_fresh hc1)
      have ha2 := appendCat_ok ha1 (people_also_fresh settings st seed
        request.preferred_language _ (resolveUserId request.user_id anonId))
      rcases hau : authorShelves settings backend
          request.preferred_language
          (most_common ((request.history.filter
            (fun b => !(is_unknown_author b.author))).map
              (fun b => b.author)) 2)
          (appendCat (appendCat
            ([], setUnion [] (request.history.map (fun b => b.title)))
            cat1)
            (get_people_also_added settings st seed
              request.preferred_language
              (appendCat ([], setUnion []
                (request.history.map (fun b => b.title))) cat1).2
              (resolveUserId request.user_id anonId)))
        with _ | acc3
      · rw [hau] at hg
        exact Option.noConfusion hg
      · rw [hau] at hg
        simp only [] at hg
        have ha3 := authorShelves_ok ha2 hau
        rcases hge : genreShelves settings backend
            request.preferred_language
            (most_common (historyGenres request.history) 2) acc3
          with _ | acc4
        · rw [hge] at hg
          exact Option.noConfusion hg
        · rw [hge] at hg
          simp only [] at hg
          have ha4 := genreShelves_ok ha3 hge
          rcases hdc : get_discoveries settings backend request.history
              request.preferred_language acc4.2 with _ | dcat
          · rw [hdc] at hg
            exact Option.noConfusion hg
          · rw [hdc] at hg
            simp only [] at hg
            have hdf := get_discoveries_fresh hdc
            have hresp : resp = ⟨if dcat.items.isEmpty then acc4.1
                else acc4.1 ++ [dcat]⟩ := by
              have := Option.some.inj hg
              rw [Prod.ext_iff] at this
              exact this.1.symm
            rw [hresp]
            show FreshChain (request.history.map (fun b => b.title))
              (if dcat.items.isEmpty then acc4.1 else acc4.1 ++ [dcat])
            by_cases hde : dcat.items.isEmpty
            · rw [if_pos hde]
              exact ha4.1
            · rw [if_neg hde]
              apply freshChain_snoc ha4.1
              intro t ht
              exact ⟨fun hm => hdf t ht (ha4.2.1 t hm),
                fun c' hc' hm => hdf t ht (ha4.2.2 c' hc' t hm)⟩

/-- C1 witness at a concrete request and backend. -/
theorem generate_no_cross_shelf_repeats_witness :
    FreshChain ([dune].map (fun b => b.title))
      ((⟨[]⟩ : RecommendationResponse)).recommendations :=
  generate_no_cross_shelf_repeats defaultSettings emptyBackend emptyStore
    duneReq 0 "anon" ⟨[]⟩ (record_history emptyStore "u1" [dune] "en")
    (by decide) (by decide)

end BooksRec
